import Mathlib

/-!
Verification of the pig-engine voxel streaming core.

Shallow embedding of the repository's chunk data model (`src/chunk.rs`), the
face-culling / ambient-occlusion mesher (`src/mesher.rs`, with the older
complete variant in `src/model.rs`), and the streaming chunk manager
(`src/chunk_manager.rs`), together with proofs settling the frozen claims.

Modelling conventions:
* Rust machine integers (`i32`, `isize`) are modelled as mathematical `Int`;
  the one place a claim depends on integer wrapping (the `as usize` cast in
  `Chunk::get_local_position`) is modelled explicitly with `% 2^64`.
* Rust `f32` vertex arithmetic (sums of small integers and halves, all exact
  in `f32`) is modelled with `ℚ`.
* Array indexing that can panic (`voxels[y][z][x]`), `assert!`, `expect` and
  `panic!` are modelled with `Option`: `none` is a panic.
* `HashMap` is an association list (first match wins), `HashSet` a list with
  membership-checked insertion, `VecDeque` a list (front = head).
* `rayon::ThreadPool::scope` blocks until the closure completes, and each
  worker closure sends exactly one result on its channel before returning, so
  the per-tick pipeline is synchronous: dispatching a job appends its result
  to the channel, and the next drain empties the channel.
-/

namespace PigEngine

/-! ## Constants (src/chunk.rs, src/chunk_manager.rs) -/

/-- `CHUNK_WIDTH` (src/chunk.rs). -/
def CHUNK_WIDTH : Nat := 16
/-- `CHUNK_HEIGHT` (src/chunk.rs). -/
def CHUNK_HEIGHT : Nat := 256
/-- `CHUNK_LOAD_RADIUS` (src/chunk_manager.rs). -/
def CHUNK_LOAD_RADIUS : Nat := 64
/-- `CHUNK_LOAD_PADDING` (src/chunk_manager.rs). -/
def CHUNK_LOAD_PADDING : Nat := 2
/-- `MAX_CHUNK_DATA_GENERATION_PER_FRAME` (src/chunk_manager.rs). -/
def MAX_CHUNK_DATA_GENERATION_PER_FRAME : Nat := 32
/-- `MAX_CHUNK_MESH_GENERATION_PER_FRAME` (src/chunk_manager.rs). -/
def MAX_CHUNK_MESH_GENERATION_PER_FRAME : Nat := 16

/-! ## Voxels and chunks (src/chunk.rs) -/

/-- The voxel material tag (src/chunk.rs `Voxel`). `air` is the empty sentinel. -/
inductive Voxel where
  | air
  | grass
  | dirt
  | stone
  | snow
  deriving DecidableEq, Repr

/-- A 2D chunk-grid coordinate (`glam::IVec2`; `.1` is the x field, `.2` the
y field, which the code uses for the world z axis). -/
abbrev Coord := Int × Int

/-- The dense voxel grid, indexed in the code's `voxels[y][z][x]` order.
Modelled as a total function; the panicking bounds of real array indexing are
enforced at the indexing sites (`isBlockFull`). -/
abbrev VoxelGrid := Nat → Nat → Nat → Voxel

/-- `Chunk` (src/chunk.rs): voxel grid plus chunk-grid position. -/
structure Chunk where
  voxels : VoxelGrid
  position : Coord

namespace Chunk

/-- `Chunk::new`: an all-air chunk at `position`. -/
def new (position : Coord) : Chunk :=
  { voxels := fun _ _ _ => Voxel.air, position := position }

/-- `Chunk::in_local_bounds`. -/
def in_local_bounds (x y z : Nat) : Bool :=
  x < CHUNK_WIDTH && z < CHUNK_WIDTH && y < CHUNK_HEIGHT

/-- `Chunk::is_block_full`: `self.voxels[y][z][x] != Voxel::Air`.
The indexing is *not* bounds-checked in the source; an out-of-bounds index
panics, modelled as `none`. -/
def is_block_full (c : Chunk) (p : Nat × Nat × Nat) : Option Bool :=
  if p.2.1 < CHUNK_HEIGHT ∧ p.2.2 < CHUNK_WIDTH ∧ p.1 < CHUNK_WIDTH then
    some (decide (c.voxels p.2.1 p.2.2 p.1 ≠ Voxel.air))
  else
    none

/-- Rust's `as usize` cast of an `isize`: reinterpret modulo `2^64`. -/
def castUsize (i : Int) : Nat := (i % (2 ^ 64 : Int)).toNat

/-- `Chunk::get_local_position`: world position to local position. Only
`y < 0` is checked; the subtraction results are cast with `as usize`. -/
def get_local_position (c : Chunk) (p : Int × Int × Int) : Option (Nat × Nat × Nat) :=
  let x := p.1 - c.position.1 * (CHUNK_WIDTH : Int)
  let z := p.2.2 - c.position.2 * (CHUNK_WIDTH : Int)
  if p.2.1 < 0 then none
  else some (castUsize x, castUsize p.2.1, castUsize z)

/-- `Chunk::offset_local_in_direction` (called `get_world_position` at its
use site in src/mesher.rs): local position plus delta, in world space. -/
def offset_local_in_direction (c : Chunk) (p : Nat × Nat × Nat)
    (d : Int × Int × Int) : Int × Int × Int :=
  ((p.1 : Int) + d.1 + c.position.1 * (CHUNK_WIDTH : Int),
   (p.2.1 : Int) + d.2.1,
   (p.2.2 : Int) + d.2.2 + c.position.2 * (CHUNK_WIDTH : Int))

end Chunk

/-! ### Terrain fill (src/chunk.rs `Chunk::fill_perlin`)

The noise generator is consumed as an opaque deterministic sampler. The
composite `x ↦ noise.get((world_xz as f64) * NOISE_SCALE)` is modelled as an
abstract function `sampler : Int → Int → ℚ` of the world (x, z) column. -/

/-- The sampled height of a column: `(noise + 1) / 2 * CHUNK_HEIGHT`, clamped
to `CHUNK_HEIGHT - 2`, then cast with `as usize` (truncation toward zero,
saturating at 0 for negative values; for the values in range this agrees with
`Int.floor ∘ max 0`). -/
def columnHeight (sampler : Int → Int → ℚ) (wx wz : Int) : Nat :=
  (Int.floor (min ((sampler wx wz + 1) / 2 * (CHUNK_HEIGHT : ℚ))
      ((CHUNK_HEIGHT : ℚ) - 2))).toNat

/-- The layered-material rule of `fill_perlin`'s inner `match`
(`200..=CHUNK_HEIGHT => Snow, 150.. => Stone, _ if y == height => Grass,
_ => Dirt`). -/
def layeredMaterial (y height : Nat) : Voxel :=
  if 200 ≤ y ∧ y ≤ CHUNK_HEIGHT then Voxel.snow
  else if 150 ≤ y then Voxel.stone
  else if y = height then Voxel.grass
  else Voxel.dirt

/-- `Chunk::fill_perlin`: for every column in range, fill `y = 0 ..= height`
with the layered material; all other grid cells keep their previous value. -/
def Chunk.fill_perlin (sampler : Int → Int → ℚ) (c : Chunk) : Chunk :=
  { c with
    voxels := fun y z x =>
      if x < CHUNK_WIDTH ∧ z < CHUNK_WIDTH ∧
          y ≤ columnHeight sampler
            (c.position.1 * (CHUNK_WIDTH : Int) + (x : Int))
            (c.position.2 * (CHUNK_WIDTH : Int) + (z : Int)) then
        layeredMaterial y (columnHeight sampler
            (c.position.1 * (CHUNK_WIDTH : Int) + (x : Int))
            (c.position.2 * (CHUNK_WIDTH : Int) + (z : Int)))
      else c.voxels y z x }

/-! ## Mesher (src/mesher.rs, texture lookup from src/asset_loader.rs) -/

/-- Face orientation (src/asset_loader.rs `Face`). -/
inductive Face where
  | up
  | down
  | side
  deriving DecidableEq, Repr

/-- `TEXTURE_UPLOAD_ORDER`, the registry built by asset loading; passed in as
a value. `get_texture_index` is the position of the first matching
`(voxel, face)` entry, cast `as u16`. -/
def get_texture_index (order : List (Voxel × Face)) (v : Voxel) (f : Face) :
    Option Nat :=
  (order.findIdx? (fun e => e.1 = v ∧ e.2 = f)).map (· % 2 ^ 16)

/-- `FACE_NORMALS` (src/mesher.rs): face kind and unit normal, in source
order up, down, right, left, front, back. -/
def FACE_NORMALS : List (Face × (Int × Int × Int)) :=
  [(Face.up, (0, 1, 0)), (Face.down, (0, -1, 0)), (Face.side, (1, 0, 0)),
   (Face.side, (-1, 0, 0)), (Face.side, (0, 0, 1)), (Face.side, (0, 0, -1))]

/-- `FACE_INDICES` (src/mesher.rs). -/
def FACE_INDICES : List Nat := [0, 1, 2, 2, 3, 0]

/-- `FACE_VERTICES` (src/mesher.rs): per-direction voxel-center offsets of
the 4 corner vertices, exact `f32` values modelled in `ℚ`. -/
def FACE_VERTICES : List (List (ℚ × ℚ × ℚ)) :=
  [ -- up
    [(-1/2, 1/2, -1/2), (-1/2, 1/2, 1/2), (1/2, 1/2, 1/2), (1/2, 1/2, -1/2)],
    -- down
    [(-1/2, -1/2, 1/2), (-1/2, -1/2, -1/2), (1/2, -1/2, -1/2), (1/2, -1/2, 1/2)],
    -- right
    [(1/2, 1/2, 1/2), (1/2, -1/2, 1/2), (1/2, -1/2, -1/2), (1/2, 1/2, -1/2)],
    -- left
    [(-1/2, 1/2, -1/2), (-1/2, -1/2, -1/2), (-1/2, -1/2, 1/2), (-1/2, 1/2, 1/2)],
    -- front
    [(-1/2, 1/2, 1/2), (-1/2, -1/2, 1/2), (1/2, -1/2, 1/2), (1/2, 1/2, 1/2)],
    -- back
    [(1/2, 1/2, -1/2), (1/2, -1/2, -1/2), (-1/2, -1/2, -1/2), (-1/2, 1/2, -1/2)] ]

/-- `AMBIENT_NEIGHBOR_OFFSETS` (src/mesher.rs): per-direction ring of the 8
ambient-occlusion sample offsets, alternating edge, corner, edge, corner, …
starting at the vertex-0 edge. -/
def AMBIENT_NEIGHBOR_OFFSETS : List (List (Int × Int × Int)) :=
  [ -- top
    [(0, 1, -1), (-1, 1, -1), (-1, 1, 0), (-1, 1, 1), (0, 1, 1), (1, 1, 1),
     (1, 1, 0), (1, 1, -1)],
    -- bottom
    [(0, -1, -1), (-1, -1, -1), (-1, -1, 0), (-1, -1, 1), (0, -1, 1),
     (1, -1, 1), (1, -1, 0), (1, -1, -1)],
    -- right
    [(1, 1, 0), (1, 1, 1), (1, 0, 1), (1, -1, 1), (1, -1, 0), (1, -1, -1),
     (1, 0, -1), (1, 1, -1)],
    -- left
    [(-1, 1, 0), (-1, 1, -1), (-1, 0, -1), (-1, -1, -1), (-1, -1, 0),
     (-1, -1, 1), (-1, 0, 1), (-1, 1, 1)],
    -- front
    [(0, 1, 1), (-1, 1, 1), (-1, 0, 1), (-1, -1, 1), (0, -1, 1), (1, -1, 1),
     (1, 0, 1), (1, 1, 1)],
    -- back
    [(0, 1, -1), (-1, 1, -1), (-1, 0, -1), (-1, -1, -1), (0, -1, -1),
     (1, -1, -1), (1, 0, -1), (1, 1, -1)] ]

/-- `MeshVertex` (src/model.rs, as extended by src/mesher.rs): position,
normal, and the packed `(texture_index << 16) | ambient_occlusion` field. -/
structure MeshVertex where
  pos : ℚ × ℚ × ℚ
  normal : ℚ × ℚ × ℚ
  texture_ambient : Nat
  deriving DecidableEq, Repr

/-- CPU-side mesh buffers (`UnUploadedMesh` in src/chunk_manager.rs). -/
abbrev MeshData := List MeshVertex × List Nat

/-- The chunk store handed to the mesher: a `HashMap<IVec2, Chunk>` as an
association list (first match wins, like `HashMap::get`). -/
abbrev ChunkStore := List (Coord × Chunk)

/-- `HashMap::get`. -/
def storeGet (s : ChunkStore) (k : Coord) : Option Chunk :=
  (s.find? (fun e => e.1 = k)).map (·.2)

namespace ChunkMesher

/-- `ChunkMesher::is_solid`: resolve the owning chunk of a world position by
Euclidean floor-division, treat a missing chunk or a negative local `y` as
not solid, then consult `is_block_full` (whose indexing can panic: `none`). -/
def is_solid (chunks : ChunkStore) (p : Int × Int × Int) : Option Bool :=
  let position := (p.1 / (CHUNK_WIDTH : Int), p.2.2 / (CHUNK_WIDTH : Int))
  match storeGet chunks position with
  | none => some false
  | some chunk =>
    match chunk.get_local_position p with
    | none => some false
    | some pos => chunk.is_block_full pos

/-- `is_solid` at a delta from a local position of the target chunk (the
`is_solid(self.chunk.get_world_position(position, delta))` pattern;
`get_world_position` resolves to `Chunk::offset_local_in_direction`). -/
def is_solid_at (chunks : ChunkStore) (c : Chunk) (p : Nat × Nat × Nat)
    (d : Int × Int × Int) : Option Bool :=
  is_solid chunks (c.offset_local_in_direction p d)

/-- Modelled from the spec: the body of `ChunkMesher::calculate_ambient_occlusion`
is missing from src/mesher.rs (the function is an unfinished stub), so the
per-vertex rule follows §4.3 of the spec, using the source's
`AMBIENT_NEIGHBOR_OFFSETS` ring table: each vertex takes its two adjacent
edge samples and the corner sample between them; if both edge samples are
solid the value is forced to maximum occlusion (0, per §8: "both solid
reports occlusion 0"), otherwise it is `3 - (edge0 + edge1 + corner)`. -/
def vertexOcclusion (e0 corner e1 : Bool) : Nat :=
  if e0 && e1 then 0
  else 3 - (e0.toNat + e1.toNat + corner.toNat)

/-- Modelled from the spec (see `vertexOcclusion`): sample the direction's
8-offset ring, then combine samples `2i, 2i+1, 2i+2 (mod 8)` for vertex `i`. -/
def calculate_ambient_occlusion (chunks : ChunkStore) (c : Chunk)
    (p : Nat × Nat × Nat) (normal_index : Nat) : Option (List Nat) := do
  let ring := AMBIENT_NEIGHBOR_OFFSETS.getD normal_index []
  let samples ← ring.mapM (is_solid_at chunks c p)
  return (List.range 4).map (fun i =>
    vertexOcclusion (samples.getD (2 * i % 8) false)
      (samples.getD ((2 * i + 1) % 8) false)
      (samples.getD ((2 * i + 2) % 8) false))

/-- The index-append step shared by src/mesher.rs `add_block` and
src/model.rs `ChunkMeshBuilder::add_block`: the offset is the second-to-last
existing index plus one, or zero when there is none. -/
def indexOffset (indices : List Nat) : Nat :=
  match indices.get? (indices.length - 2) with
  | some i => i + 1
  | none => 0

/-- Append one face's 6 indices: `FACE_INDICES` shifted by `indexOffset`. -/
def appendFaceIndices (indices : List Nat) : List Nat :=
  indices ++ FACE_INDICES.map (· + indexOffset indices)

/-- Emit one face: the 4 corner vertices (position = corner offset + local
position + chunk offset `(16·px, 0, 16·pz)`), each packing
`(texture_index << 16) | ambient_occlusion`, then the 6 indices. -/
def emitFace (c : Chunk) (p : Nat × Nat × Nat) (normal : Int × Int × Int)
    (ti : Nat) (ao : List Nat) (corners : List (ℚ × ℚ × ℚ)) (st : MeshData) :
    MeshData :=
  let base : ℚ × ℚ × ℚ :=
    ((p.1 : ℚ) + (c.position.1 : ℚ) * (CHUNK_WIDTH : ℚ), (p.2.1 : ℚ),
     (p.2.2 : ℚ) + (c.position.2 : ℚ) * (CHUNK_WIDTH : ℚ))
  let verts := (List.range corners.length).map (fun vi =>
    let off := corners.getD vi (0, 0, 0)
    { pos := (off.1 + base.1, off.2.1 + base.2.1, off.2.2 + base.2.2),
      normal := ((normal.1 : ℚ), (normal.2.1 : ℚ), (normal.2.2 : ℚ)),
      texture_ambient := (ti <<< 16) ||| ao.getD vi 0 : MeshVertex })
  (st.1 ++ verts, appendFaceIndices st.2)

/-- The loop body of `ChunkMesher::add_block` for one direction: emit a
quad unless the neighboring voxel is solid; a missing texture mapping
panics (`none`). -/
def faceStep (chunks : ChunkStore) (order : List (Voxel × Face)) (c : Chunk)
    (p : Nat × Nat × Nat) (voxel : Voxel) (st : MeshData)
    (normal_index : Nat) : Option MeshData := do
  let (face, normal) := FACE_NORMALS.getD normal_index (Face.up, (0, 0, 0))
  let solid ← is_solid_at chunks c p normal
  if solid then
    return st
  else
    match get_texture_index order voxel face with
    | none => none
    | some ti => do
      let ao ← calculate_ambient_occlusion chunks c p normal_index
      return emitFace c p normal ti ao
        (FACE_VERTICES.getD normal_index []) st

/-- `ChunkMesher::add_block`: skip air voxels; for each of the 6 directions,
run `faceStep`. Out-of-bounds voxel indexing panics (`none`). -/
def add_block (chunks : ChunkStore) (order : List (Voxel × Face)) (c : Chunk)
    (st : MeshData) (p : Nat × Nat × Nat) : Option MeshData := do
  let full ← c.is_block_full p
  if !full then
    return st
  else
    (List.range FACE_NORMALS.length).foldlM
      (faceStep chunks order c p (c.voxels p.2.1 p.2.2 p.1)) st

/-- The scan order of `ChunkMesher::build`: `y` outer, then `z`, then `x`. -/
def allPositions : List (Nat × Nat × Nat) :=
  (List.range CHUNK_HEIGHT).flatMap (fun y =>
    (List.range CHUNK_WIDTH).flatMap (fun z =>
      (List.range CHUNK_WIDTH).map (fun x => (x, y, z))))

/-- `ChunkMesher::new(...).build()`: look up the target chunk (`expect`
panics when absent) and fold `add_block` over the scan order. -/
def build (chunks : ChunkStore) (order : List (Voxel × Face)) (cpos : Coord) :
    Option MeshData := do
  match storeGet chunks cpos with
  | none => none
  | some c => allPositions.foldlM (add_block chunks order c) (([], []) : MeshData)

end ChunkMesher

/-! ## Chunk manager (src/chunk_manager.rs) -/

/-- `HashMap::insert` on an association list: the new binding shadows (and
drops) any previous binding of the key. -/
def storeInsert (s : ChunkStore) (k : Coord) (v : Chunk) : ChunkStore :=
  (k, v) :: s.filter (fun e => ¬ e.1 = k)

/-- `HashMap::insert` for mesh stores. -/
def meshInsert (s : List (Coord × MeshData)) (k : Coord) (v : MeshData) :
    List (Coord × MeshData) :=
  (k, v) :: s.filter (fun e => ¬ e.1 = k)

/-- `HashMap::contains_key` for mesh stores. -/
def meshContains (s : List (Coord × MeshData)) (k : Coord) : Bool :=
  s.any (fun e => e.1 = k)

/-- `HashSet::insert`: no-op when the element is present. -/
def setInsert (s : List Coord) (k : Coord) : List Coord :=
  if k ∈ s then s else k :: s

/-- `HashSet::remove`. -/
def setRemove (s : List Coord) (k : Coord) : List Coord :=
  s.filter (fun e => ¬ e = k)

/-- The `ChunkManager` state. The two mpsc channels hold results of jobs
that have been dispatched but not yet drained; since the worker closures run
to completion inside `ThreadPool::scope` before dispatch returns, a
dispatched job's result is in the channel from the moment of dispatch. -/
structure ChunkManager where
  chunks : ChunkStore
  uploaded_meshes : List (Coord × MeshData)
  unuploaded_meshes : List (Coord × MeshData)
  load_queue : List Coord
  build_queue : List Coord
  currently_generating : List Coord
  currently_meshing : List Coord
  chunk_channel : List Chunk
  mesh_channel : List (Coord × MeshData)
  current_chunk : Option Coord

namespace ChunkManager

/-- `ChunkManager::new`: everything empty, no current chunk. -/
def new : ChunkManager :=
  { chunks := [], uploaded_meshes := [], unuploaded_meshes := [],
    load_queue := [], build_queue := [], currently_generating := [],
    currently_meshing := [], chunk_channel := [], mesh_channel := [],
    current_chunk := none }

/-- The generation worker body: `Chunk::new(position)` then `fill_perlin`. -/
def genChunk (sampler : Int → Int → ℚ) (position : Coord) : Chunk :=
  (Chunk.new position).fill_perlin sampler

/-- One iteration of the drain loop of `ChunkManager::load_chunks`. -/
def genDrainStep (st : ChunkManager) (c : Chunk) : ChunkManager :=
  { st with
    currently_generating := setRemove st.currently_generating c.position,
    chunks := storeInsert st.chunks c.position c }

/-- The drain loop of `ChunkManager::load_chunks`: move every completed
chunk from the channel into the store, removing it from the in-flight set. -/
def drainGenResults (s : ChunkManager) : ChunkManager :=
  s.chunk_channel.foldl genDrainStep { s with chunk_channel := [] }

/-- One iteration of the dispatch loop of `ChunkManager::load_chunks`. -/
def genDispatchStep (sampler : Int → Int → ℚ) (st : ChunkManager)
    (p : Coord) : ChunkManager :=
  { st with
    currently_generating := setInsert st.currently_generating p,
    chunk_channel := st.chunk_channel ++ [genChunk sampler p] }

/-- The dispatch loop of `ChunkManager::load_chunks`: drain up to
`MAX_CHUNK_DATA_GENERATION_PER_FRAME` queue entries, mark each in-flight and
run its generation job (whose result lands in the channel). -/
def dispatchGen (sampler : Int → Int → ℚ) (s : ChunkManager) : ChunkManager :=
  let k := min MAX_CHUNK_DATA_GENERATION_PER_FRAME s.load_queue.length
  (s.load_queue.take k).foldl (genDispatchStep sampler)
    { s with load_queue := s.load_queue.drop k }

/-- `ChunkManager::load_chunks`. -/
def load_chunks (sampler : Int → Int → ℚ) (s : ChunkManager) : ChunkManager :=
  dispatchGen sampler (drainGenResults s)

/-- The drain loop of `ChunkManager::build_meshes`: move every completed
mesh into the unuploaded store; the `assert!` makes a result for an
already-resident mesh (unuploaded or uploaded) a panic (`none`). -/
def meshDrainStep (st : ChunkManager) (pm : Coord × MeshData) :
    Option ChunkManager :=
  if meshContains st.unuploaded_meshes pm.1 ∨
      meshContains st.uploaded_meshes pm.1 then
    none
  else
    some { st with
      currently_meshing := setRemove st.currently_meshing pm.1,
      unuploaded_meshes := meshInsert st.unuploaded_meshes pm.1 pm.2 }

/-- See `meshDrainStep`. -/
def drainMeshResults (arrivals : List (Coord × MeshData)) (s : ChunkManager) :
    Option ChunkManager :=
  arrivals.foldlM meshDrainStep { s with mesh_channel := [] }

/-- The dispatch loop of `ChunkManager::build_meshes`: drain up to
`MAX_CHUNK_MESH_GENERATION_PER_FRAME` queue entries; an entry whose chunk is
not resident is set aside and re-appended to the queue, the rest are marked
in-flight and their mesh jobs run (a panicking mesh job, e.g. a missing
texture mapping, propagates out of `scope`: `none`). -/
def meshDispatchStep (order : List (Voxel × Face))
    (acc : List Coord × ChunkManager) (p : Coord) :
    Option (List Coord × ChunkManager) :=
  if (storeGet acc.2.chunks p).isSome then
    match ChunkMesher.build acc.2.chunks order p with
    | none => none
    | some mesh =>
      some (acc.1,
        { acc.2 with
          currently_meshing := setInsert acc.2.currently_meshing p,
          mesh_channel := acc.2.mesh_channel ++ [(p, mesh)] })
  else
    some (acc.1 ++ [p], acc.2)

/-- See `meshDispatchStep`. -/
def dispatchMesh (order : List (Voxel × Face)) (s : ChunkManager) :
    Option ChunkManager := do
  let k := min MAX_CHUNK_MESH_GENERATION_PER_FRAME s.build_queue.length
  let st ← (s.build_queue.take k).foldlM (meshDispatchStep order)
    (([] : List Coord), { s with build_queue := s.build_queue.drop k })
  return { st.2 with build_queue := st.2.build_queue ++ st.1 }

/-- `ChunkManager::build_meshes`. -/
def build_meshes (order : List (Voxel × Face)) (s : ChunkManager) :
    Option ChunkManager :=
  (drainMeshResults s.mesh_channel s).bind (dispatchMesh order)

/-- The focal chunk coordinate: floor-division (`div_euclid`) of the world
x and z (already truncated to integers) by `CHUNK_WIDTH`. -/
def toChunkCoord (px pz : Int) : Coord :=
  (px / (CHUNK_WIDTH : Int), pz / (CHUNK_WIDTH : Int))

/-- The candidate coordinates around `position` within Chebyshev radius
`radius` (`ChunkManager::get_chunks_around`), in `x` outer / `z` inner scan
order. -/
def get_chunks_around (position : Coord) (radius : Nat) : List Coord :=
  (List.range (2 * radius + 1)).flatMap (fun i =>
    (List.range (2 * radius + 1)).map (fun j =>
      (position.1 + ((i : Int) - (radius : Int)),
       position.2 + ((j : Int) - (radius : Int)))))

/-- The Chebyshev distance tag of `queue_surrounding_chunks`:
`max(|dx|, |dz|)` (the code comment says "manhattan", the expression is the
Chebyshev maximum). -/
def chebyshev (a b : Coord) : Nat :=
  max (a.1 - b.1).natAbs (a.2 - b.2).natAbs

/-- The comparator passed to `sort_by` in `queue_surrounding_chunks`:
`b_inside.cmp(&a_inside).then_with(|| dist_a.cmp(dist_b))` where
`inside = dist <= CHUNK_LOAD_RADIUS`. -/
def neighborOrder (loadRadius : Nat) (a b : Coord × Nat) : Prop :=
  (compare (decide (b.2 ≤ loadRadius)) (decide (a.2 ≤ loadRadius))).then
    (compare a.2 b.2) ≠ Ordering.gt

instance (loadRadius : Nat) : DecidableRel (neighborOrder loadRadius) :=
  fun a b => by unfold neighborOrder; infer_instance

/-- The tagged, sorted candidate list of `queue_surrounding_chunks`,
parameterized by the radius and padding constants. Rust's `sort_by` is a
stable sort, and `neighborOrder` is a total preorder, so the result equals
stable insertion sort by the same comparator. -/
def sortedNeighbors (loadRadius padding : Nat) (player : Coord) :
    List (Coord × Nat) :=
  ((get_chunks_around player (loadRadius + padding)).map
      (fun c => (c, chebyshev player c))).insertionSort
    (neighborOrder loadRadius)

/-- The first half of the enqueue loop body of `queue_surrounding_chunks`:
push the candidate to the load queue unless it is resident, queued, or
in-flight for generation. -/
def considerLoad (s : ChunkManager) (n : Coord) : ChunkManager :=
  if (storeGet s.chunks n).isSome ∨ n ∈ s.load_queue ∨
      n ∈ s.currently_generating then s
  else { s with load_queue := s.load_queue ++ [n] }

/-- The second half of the enqueue loop body of `queue_surrounding_chunks`:
push the candidate to the build queue unless it is mesh-resident, queued,
or in-flight for meshing. -/
def considerBuild (s : ChunkManager) (n : Coord) : ChunkManager :=
  if meshContains s.unuploaded_meshes n ∨ meshContains s.uploaded_meshes n ∨
      n ∈ s.build_queue ∨ n ∈ s.currently_meshing then s
  else { s with build_queue := s.build_queue ++ [n] }

/-- The enqueue loop body of `queue_surrounding_chunks` for one candidate:
the load-queue push, then (for in-radius candidates only) the build-queue
push. -/
def considerCandidate (s : ChunkManager) (nd : Coord × Nat) : ChunkManager :=
  let s1 := considerLoad s nd.1
  if nd.2 > CHUNK_LOAD_RADIUS then s1
  else considerBuild s1 nd.1

/-- `ChunkManager::queue_surrounding_chunks`. -/
def queue_surrounding_chunks (s : ChunkManager) : ChunkManager :=
  match s.current_chunk with
  | none => s
  | some pc =>
    (sortedNeighbors CHUNK_LOAD_RADIUS CHUNK_LOAD_PADDING pc).foldl
      considerCandidate s

/-- `ChunkManager::update`: drain and dispatch both pipelines, then compute
the focal chunk and, only if it changed, record it and re-enqueue. -/
def update (sampler : Int → Int → ℚ) (order : List (Voxel × Face))
    (s : ChunkManager) (px pz : Int) : Option ChunkManager :=
  (build_meshes order (load_chunks sampler s)).map (fun s2 =>
    let pc := toChunkCoord px pz
    if s2.current_chunk = some pc then s2
    else queue_surrounding_chunks { s2 with current_chunk := some pc })

/-- `ChunkManager::resolve_mesh_uploads`: drain every unuploaded mesh into
the uploaded store (GPU upload is outside the core; the mesh data is carried
over unchanged). -/
def resolve_mesh_uploads (s : ChunkManager) : ChunkManager :=
  { s with
    unuploaded_meshes := [],
    uploaded_meshes := s.unuploaded_meshes.foldl
      (fun u (pm : Coord × MeshData) => meshInsert u pm.1 pm.2)
      s.uploaded_meshes }

/-- One observable step of the manager: an `update` tick that does not panic,
or a `resolve_mesh_uploads` call. -/
inductive Step (sampler : Int → Int → ℚ) (order : List (Voxel × Face)) :
    ChunkManager → ChunkManager → Prop where
  | update {s s' : ChunkManager} (px pz : Int)
      (h : update sampler order s px pz = some s') : Step sampler order s s'
  | resolve {s : ChunkManager} :
      Step sampler order s (resolve_mesh_uploads s)

/-- The states reachable from `ChunkManager::new`. -/
inductive Reachable (sampler : Int → Int → ℚ) (order : List (Voxel × Face)) :
    ChunkManager → Prop where
  | init : Reachable sampler order new
  | step (s s' : ChunkManager) (hs : Reachable sampler order s)
      (hstep : Step sampler order s s') : Reachable sampler order s'

end ChunkManager

/-! ## Basic lemmas about the container operations -/

theorem mem_setInsert (s : List Coord) (k p : Coord) :
    p ∈ setInsert s k ↔ p = k ∨ p ∈ s := by
  unfold setInsert
  split
  · constructor
    · exact fun h => Or.inr h
    · rintro (rfl | h)
      · assumption
      · exact h
  · simp

theorem mem_setRemove (s : List Coord) (k p : Coord) :
    p ∈ setRemove s k ↔ p ∈ s ∧ p ≠ k := by
  unfold setRemove
  simp

theorem setInsert_nodup (s : List Coord) (k : Coord) (h : s.Nodup) :
    (setInsert s k).Nodup := by
  unfold setInsert
  split
  · exact h
  · exact List.Nodup.cons (by assumption) h

theorem setRemove_nodup (s : List Coord) (k : Coord) (h : s.Nodup) :
    (setRemove s k).Nodup :=
  List.Nodup.filter _ h

theorem meshContains_iff (s : List (Coord × MeshData)) (p : Coord) :
    meshContains s p = true ↔ p ∈ s.map Prod.fst := by
  unfold meshContains
  rw [List.any_eq_true]
  constructor
  · rintro ⟨e, he, hp⟩
    exact List.mem_map.mpr ⟨e, he, of_decide_eq_true hp⟩
  · intro h
    obtain ⟨e, he, hp⟩ := List.mem_map.mp h
    exact ⟨e, he, decide_eq_true hp⟩

theorem mem_meshInsert_map_fst (u : List (Coord × MeshData)) (k : Coord)
    (v : MeshData) (p : Coord) :
    p ∈ (meshInsert u k v).map Prod.fst ↔ p = k ∨ p ∈ u.map Prod.fst := by
  unfold meshInsert
  constructor
  · intro h
    obtain ⟨e, he, hp⟩ := List.mem_map.mp h
    rcases List.mem_cons.mp he with he | he
    · subst he
      exact Or.inl hp.symm
    · exact Or.inr (List.mem_map.mpr ⟨e, (List.mem_filter.mp he).1, hp⟩)
  · rintro (rfl | h)
    · exact List.mem_map.mpr ⟨(p, v), List.mem_cons_self _ _, rfl⟩
    · obtain ⟨e, he, hp⟩ := List.mem_map.mp h
      by_cases hek : e.1 = k
      · exact List.mem_map.mpr ⟨(k, v), List.mem_cons_self _ _,
          by rw [← hp, hek]⟩
      · exact List.mem_map.mpr ⟨e, List.mem_cons_of_mem _
          (List.mem_filter.mpr ⟨he, by simpa using hek⟩), hp⟩

theorem storeGet_isSome_iff (s : ChunkStore) (p : Coord) :
    (storeGet s p).isSome = true ↔ p ∈ s.map Prod.fst := by
  unfold storeGet
  rw [show ∀ o : Option (Coord × Chunk),
      (o.map (fun x => x.2)).isSome = o.isSome from fun o => by cases o <;> rfl]
  rw [List.find?_isSome]
  constructor
  · rintro ⟨e, he, hp⟩
    exact List.mem_map.mpr ⟨e, he, of_decide_eq_true hp⟩
  · intro h
    obtain ⟨e, he, hp⟩ := List.mem_map.mp h
    exact ⟨e, he, decide_eq_true hp⟩

theorem mem_storeInsert_map_fst (s : ChunkStore) (k : Coord) (v : Chunk)
    (p : Coord) :
    p ∈ (storeInsert s k v).map Prod.fst ↔ p = k ∨ p ∈ s.map Prod.fst := by
  unfold storeInsert
  constructor
  · intro h
    obtain ⟨e, he, hp⟩ := List.mem_map.mp h
    rcases List.mem_cons.mp he with he | he
    · subst he
      exact Or.inl hp.symm
    · exact Or.inr (List.mem_map.mpr ⟨e, (List.mem_filter.mp he).1, hp⟩)
  · rintro (rfl | h)
    · exact List.mem_map.mpr ⟨(p, v), List.mem_cons_self _ _, rfl⟩
    · obtain ⟨e, he, hp⟩ := List.mem_map.mp h
      by_cases hek : e.1 = k
      · exact List.mem_map.mpr ⟨(k, v), List.mem_cons_self _ _,
          by rw [← hp, hek]⟩
      · exact List.mem_map.mpr ⟨e, List.mem_cons_of_mem _
          (List.mem_filter.mpr ⟨he, by simpa using hek⟩), hp⟩

/-- Inserting a fresh key preserves every existing binding. -/
theorem storeGet_storeInsert_ne (s : ChunkStore) (k : Coord) (v : Chunk)
    (p : Coord) (h : p ≠ k) :
    storeGet (storeInsert s k v) p = storeGet s p := by
  unfold storeGet storeInsert
  rw [List.find?_cons_of_neg _ (by simpa using fun he => h he.symm)]
  congr 1
  induction s with
  | nil => rfl
  | cons e s ih =>
    by_cases he : e.1 = k
    · rw [List.filter_cons_of_neg (by simpa using he)]
      rw [List.find?_cons_of_neg _ (by simp; rintro rfl; exact h he)]
      exact ih
    · rw [List.filter_cons_of_pos (by simpa using he)]
      by_cases hep : e.1 = p
      · rw [List.find?_cons_of_pos _ (by simpa using hep),
          List.find?_cons_of_pos _ (by simpa using hep)]
      · rw [List.find?_cons_of_neg _ (by simpa using hep),
          List.find?_cons_of_neg _ (by simpa using hep)]
        exact ih

/-! ## Claims about src/chunk.rs -/

/-- Claim C10: for every chunk and every world position `[x, y, z]`,
`Chunk::get_local_position` returns `None` exactly when `y < 0`; it never
bounds-checks `x`, `z`, or the upper bound of `y`, so any position with
`y ≥ 0` yields `Some` — and when the subtraction of the chunk offset is
negative, the `as usize` cast wraps it to a huge index (at least `2^63`, far
beyond `CHUNK_WIDTH`). -/
theorem c10_get_local_position_checks_only_negative_y (c : Chunk)
    (x y z : Int) :
    (c.get_local_position (x, y, z) = none ↔ y < 0) ∧
    (0 ≤ y → c.get_local_position (x, y, z) =
      some (Chunk.castUsize (x - c.position.1 * (CHUNK_WIDTH : Int)),
        Chunk.castUsize y,
        Chunk.castUsize (z - c.position.2 * (CHUNK_WIDTH : Int)))) ∧
    (x - c.position.1 * (CHUNK_WIDTH : Int) < 0 →
      -(2 ^ 63 : Int) ≤ x - c.position.1 * (CHUNK_WIDTH : Int) →
      2 ^ 63 ≤ Chunk.castUsize (x - c.position.1 * (CHUNK_WIDTH : Int))) := by
  refine ⟨?_, ?_, ?_⟩
  · unfold Chunk.get_local_position
    dsimp only
    split
    · simpa
    · simp
      omega
  · intro hy
    unfold Chunk.get_local_position
    dsimp only
    split
    · omega
    · rfl
  · intro hneg hlow
    unfold Chunk.castUsize
    omega

/-- Witness for C10 at the chunk at grid position (1, 1) and world position
(0, 5, 0): the local x and z wrap to `2^64 - 16`. -/
theorem c10_witness :
    Chunk.get_local_position (Chunk.new (1, 1)) (0, 5, 0) =
      some (18446744073709551600, 5, 18446744073709551600) ∧
    (2 ^ 63 : Nat) ≤ 18446744073709551600 := by
  constructor
  · have h := (c10_get_local_position_checks_only_negative_y
      (Chunk.new (1, 1)) 0 5 0).2.1 (by norm_num)
    rw [h]
    decide
  · have h := (c10_get_local_position_checks_only_negative_y
      (Chunk.new (1, 1)) 0 5 0).2.2 (by decide) (by decide)
    have he : Chunk.castUsize (0 - (Chunk.new (1, 1)).position.1 *
        (CHUNK_WIDTH : Int)) = 18446744073709551600 := by decide
    rw [he] at h
    exact h

/-- Counterexample to claim C9 as stated: the chunk-local solidity test is
not bounds-checked — at the out-of-bounds local position (0, 256, 0) it
panics (index out of bounds, modelled `none`) instead of returning `false`. -/
theorem c9_counterexample :
    Chunk.is_block_full (Chunk.new (0, 0)) (0, CHUNK_HEIGHT, 0) = none ∧
    Chunk.is_block_full (Chunk.new (0, 0)) (0, CHUNK_HEIGHT, 0) ≠
      some false := by
  constructor <;> decide

/-- Claim C9 (amended): `Chunk::is_block_full` is not bounds-checked: it
panics on any local position outside the grid, and for in-bounds positions
returns `true` exactly when the voxel is not Air. The world-space solidity
test `ChunkMesher::is_solid` does return `false` (without panicking) when
the derived local `y` is negative or when the owning chunk of the position
is not resident. -/
theorem c9_solidity_test (c : Chunk) (x y z : Nat) (chunks : ChunkStore)
    (wx wy wz : Int) :
    (x < CHUNK_WIDTH → z < CHUNK_WIDTH → y < CHUNK_HEIGHT →
      (Chunk.is_block_full c (x, y, z) = some true ↔
        c.voxels y z x ≠ Voxel.air)) ∧
    (¬ (x < CHUNK_WIDTH ∧ z < CHUNK_WIDTH ∧ y < CHUNK_HEIGHT) →
      Chunk.is_block_full c (x, y, z) = none) ∧
    (wy < 0 → ChunkMesher.is_solid chunks (wx, wy, wz) = some false) ∧
    (storeGet chunks (wx / (CHUNK_WIDTH : Int), wz / (CHUNK_WIDTH : Int)) =
        none →
      ChunkMesher.is_solid chunks (wx, wy, wz) = some false) := by
  refine ⟨?_, ?_, ?_, ?_⟩
  · intro hx hz hy
    unfold Chunk.is_block_full
    rw [if_pos ⟨hy, hz, hx⟩]
    simp
  · intro h
    unfold Chunk.is_block_full
    rw [if_neg (by tauto)]
  · intro hy
    unfold ChunkMesher.is_solid
    cases hfind : storeGet chunks (wx / (CHUNK_WIDTH : Int),
        wz / (CHUNK_WIDTH : Int)) with
    | none => simp [hfind]
    | some ch =>
      simp only [hfind]
      have : ch.get_local_position (wx, wy, wz) = none := by
        unfold Chunk.get_local_position
        simpa using hy
      simp [this]
  · intro hfind
    unfold ChunkMesher.is_solid
    simp [hfind]

/-- Witness for C9 (amended) at a stone voxel of a one-voxel chunk, and at a
world position with negative y over an empty store. -/
theorem c9_witness :
    (Chunk.is_block_full
        { voxels := fun y z x => if x = 0 ∧ y = 0 ∧ z = 0 then Voxel.stone
            else Voxel.air,
          position := (0, 0) } (0, 0, 0) = some true ↔
      ({ voxels := fun y z x => if x = 0 ∧ y = 0 ∧ z = 0 then Voxel.stone
            else Voxel.air,
          position := (0, 0) } : Chunk).voxels 0 0 0 ≠ Voxel.air) ∧
    ChunkMesher.is_solid [] (3, -1, 3) = some false := by
  constructor
  · exact (c9_solidity_test _ 0 0 0 [] 0 0 0).1 (by decide) (by decide)
      (by decide)
  · exact (c9_solidity_test (Chunk.new (0, 0)) 0 0 0 [] 3 (-1) 3).2.2.1
      (by decide)

/-- The clamp in `fill_perlin` keeps every column height at most
`CHUNK_HEIGHT - 2`. -/
theorem columnHeight_le (sampler : Int → Int → ℚ) (wx wz : Int) :
    columnHeight sampler wx wz ≤ CHUNK_HEIGHT - 2 := by
  unfold columnHeight
  have hmin : min ((sampler wx wz + 1) / 2 * (CHUNK_HEIGHT : ℚ))
      ((CHUNK_HEIGHT : ℚ) - 2) ≤ ((CHUNK_HEIGHT - 2 : Nat) : ℚ) := by
    refine le_trans (min_le_right _ _) ?_
    norm_num [CHUNK_HEIGHT]
  have hfl := Int.floor_le_floor hmin
  rw [Int.floor_natCast] at hfl
  omega

/-- The layered material rule never produces Air. -/
theorem layeredMaterial_ne_air (y height : Nat) :
    layeredMaterial y height ≠ Voxel.air := by
  unfold layeredMaterial
  split
  · simp
  · split
    · simp
    · split <;> simp

/-- Claim C8: after filling a freshly created chunk via the injected
sampler, every (x, z) column has a height `h` (namely `columnHeight` of the
world-space column, clamped below the grid top, so `h < CHUNK_HEIGHT`) such
that every voxel with `y ≤ h` is the non-Air layered material and every
voxel with `y > h` is Air; and the filled result depends only on the chunk's
position (and prior grid) and the sampler. -/
theorem c8_fill_perlin_columns (sampler : Int → Int → ℚ) (pos : Coord)
    (x z : Nat) (hx : x < CHUNK_WIDTH) (hz : z < CHUNK_WIDTH) :
    (columnHeight sampler (pos.1 * (CHUNK_WIDTH : Int) + (x : Int))
        (pos.2 * (CHUNK_WIDTH : Int) + (z : Int)) < CHUNK_HEIGHT) ∧
    (∀ y, y ≤ columnHeight sampler (pos.1 * (CHUNK_WIDTH : Int) + (x : Int))
        (pos.2 * (CHUNK_WIDTH : Int) + (z : Int)) →
      ((Chunk.new pos).fill_perlin sampler).voxels y z x =
        layeredMaterial y (columnHeight sampler
          (pos.1 * (CHUNK_WIDTH : Int) + (x : Int))
          (pos.2 * (CHUNK_WIDTH : Int) + (z : Int))) ∧
      ((Chunk.new pos).fill_perlin sampler).voxels y z x ≠ Voxel.air) ∧
    (∀ y, columnHeight sampler (pos.1 * (CHUNK_WIDTH : Int) + (x : Int))
        (pos.2 * (CHUNK_WIDTH : Int) + (z : Int)) < y →
      ((Chunk.new pos).fill_perlin sampler).voxels y z x = Voxel.air) ∧
    (∀ c c' : Chunk, c.position = c'.position → c.voxels = c'.voxels →
      c.fill_perlin sampler = c'.fill_perlin sampler) := by
  refine ⟨?_, ?_, ?_, ?_⟩
  · have := columnHeight_le sampler (pos.1 * (CHUNK_WIDTH : Int) + (x : Int))
      (pos.2 * (CHUNK_WIDTH : Int) + (z : Int))
    unfold CHUNK_HEIGHT at *
    omega
  · intro y hy
    have hv : ((Chunk.new pos).fill_perlin sampler).voxels y z x =
        layeredMaterial y (columnHeight sampler
          (pos.1 * (CHUNK_WIDTH : Int) + (x : Int))
          (pos.2 * (CHUNK_WIDTH : Int) + (z : Int))) := by
      unfold Chunk.fill_perlin Chunk.new
      dsimp only
      rw [if_pos ⟨hx, hz, hy⟩]
    exact ⟨hv, hv ▸ layeredMaterial_ne_air _ _⟩
  · intro y hy
    unfold Chunk.fill_perlin Chunk.new
    dsimp only
    rw [if_neg (by omega)]
  · intro c c' hp hv
    unfold Chunk.fill_perlin
    cases c
    cases c'
    simp_all

/-- Witness for C8 with the constant-zero sampler at the origin chunk,
column (0, 0): the height is `(0 + 1)/2 · 256 = 128`, the surface voxel is
Grass and the voxel above is Air. -/
theorem c8_witness :
    columnHeight (fun _ _ => 0) 0 0 < CHUNK_HEIGHT ∧
    ((Chunk.new (0, 0)).fill_perlin (fun _ _ => 0)).voxels 128 0 0 =
      layeredMaterial 128 (columnHeight (fun _ _ => 0) 0 0) ∧
    ((Chunk.new (0, 0)).fill_perlin (fun _ _ => 0)).voxels 129 0 0 =
      Voxel.air := by
  have h128 : columnHeight (fun _ _ => 0) 0 0 = 128 := by
    unfold columnHeight CHUNK_HEIGHT
    norm_num
    decide
  refine ⟨?_, ?_, ?_⟩
  · exact (c8_fill_perlin_columns (fun _ _ => 0) (0, 0) 0 0 (by decide)
      (by decide)).1
  · have := ((c8_fill_perlin_columns (fun _ _ => 0) (0, 0) 0 0 (by decide)
      (by decide)).2.1 128 (by simp [h128])).1
    simpa using this
  · have := (c8_fill_perlin_columns (fun _ _ => 0) (0, 0) 0 0 (by decide)
      (by decide)).2.2.1 129 (by simp [h128])
    simpa using this

/-! ## Claim C1 (src/chunk_manager.rs `queue_surrounding_chunks` ordering)

The doc comment above the sort says "prioritize 'padding' chunks (i.e.
chunks outside the load-radius), then sort from closest to the player", and
the spec says the same; but the comparator
`b_inside.cmp(&a_inside).then_with(|| dist_a.cmp(dist_b))` returns `Less`
when `a` is in-radius and `b` is in the padding ring, so the sort puts
in-radius candidates first. -/

/-- Claim C1, evaluated at the spec's own scenario (`LOAD_RADIUS = 2`,
`PADDING = 1`, focal chunk the origin): the candidate set has the claimed
`(2·3+1)² = 49` coordinates and ascending Chebyshev distance within each
group, but the dispatch list puts all 25 in-radius coordinates
(distance ≤ 2) *before* the 24 padding-ring coordinates (distance 3) — the
opposite of the claimed padding-first order. -/
theorem c1_in_radius_sorted_before_padding :
    (ChunkManager.sortedNeighbors 2 1 (0, 0)).length = 49 ∧
    (ChunkManager.sortedNeighbors 2 1 (0, 0)).map Prod.snd =
      [0] ++ List.replicate 8 1 ++ List.replicate 16 2 ++
        List.replicate 24 3 := by
  constructor <;> decide

/-! ## Claim C7 (the face index pattern and the running-offset computation) -/

namespace ChunkMesher

/-- The claimed shape of the index buffer after `n` emitted faces: the
pattern `[0,1,2,2,3,0]`, each block offset by 4 times the number of faces
before it. -/
def patternIndices (n : Nat) : List Nat :=
  (List.range n).flatMap (fun k => FACE_INDICES.map (· + 4 * k))

/-- A mesh-builder state that is a trace of whole emitted faces: `4n`
vertices and the `n`-face index pattern. -/
def IsFaceTrace (st : MeshData) : Prop :=
  ∃ n, st.1.length = 4 * n ∧ st.2 = patternIndices n

theorem patternIndices_succ (n : Nat) :
    patternIndices (n + 1) =
      patternIndices n ++ FACE_INDICES.map (· + 4 * n) := by
  unfold patternIndices
  rw [List.range_succ, List.flatMap_append]
  simp

theorem patternIndices_length (n : Nat) :
    (patternIndices n).length = 6 * n := by
  induction n with
  | zero => rfl
  | succ m ih =>
    rw [patternIndices_succ, List.length_append, ih]
    simp [FACE_INDICES]
    omega

/-- The code's offset — second-to-last existing index plus one, or zero —
recovers the running vertex count `4n` on every `n`-face trace. -/
theorem indexOffset_patternIndices (n : Nat) :
    indexOffset (patternIndices n) = 4 * n := by
  cases n with
  | zero => rfl
  | succ m =>
    unfold indexOffset
    rw [patternIndices_succ]
    have hlen : (patternIndices m).length = 6 * m := patternIndices_length m
    have hl : (patternIndices m ++ FACE_INDICES.map (· + 4 * m)).length =
        6 * m + 6 := by
      rw [List.length_append, hlen]
      simp [FACE_INDICES]
    rw [hl]
    have hidx : 6 * m + 6 - 2 = (patternIndices m).length + 4 := by omega
    rw [hidx, List.get?_append_right (by omega)]
    simp [FACE_INDICES]
    omega

theorem appendFaceIndices_patternIndices (n : Nat) :
    appendFaceIndices (patternIndices n) = patternIndices (n + 1) := by
  unfold appendFaceIndices
  rw [indexOffset_patternIndices, patternIndices_succ]

/-- `emitFace` appends exactly 4 vertices and 6 indices (when handed the 4
corner offsets of a face template). -/
theorem emitFace_lengths (c : Chunk) (p : Nat × Nat × Nat)
    (normal : Int × Int × Int) (ti : Nat) (ao : List Nat)
    (corners : List (ℚ × ℚ × ℚ)) (st : MeshData)
    (hc : corners.length = 4) :
    (emitFace c p normal ti ao corners st).1.length = st.1.length + 4 ∧
    (emitFace c p normal ti ao corners st).2.length = st.2.length + 6 := by
  unfold emitFace appendFaceIndices
  simp [hc, FACE_INDICES]

theorem emitFace_trace (c : Chunk) (p : Nat × Nat × Nat)
    (normal : Int × Int × Int) (ti : Nat) (ao : List Nat)
    (corners : List (ℚ × ℚ × ℚ)) (st : MeshData)
    (hc : corners.length = 4) (h : IsFaceTrace st) :
    IsFaceTrace (emitFace c p normal ti ao corners st) := by
  obtain ⟨n, hv, hi⟩ := h
  refine ⟨n + 1, ?_, ?_⟩
  · rw [(emitFace_lengths c p normal ti ao corners st hc).1, hv]
    omega
  · show appendFaceIndices st.2 = _
    rw [hi, appendFaceIndices_patternIndices]

/-- The per-face body of `add_block` preserves the face-trace shape. -/
theorem faceStep_trace (chunks : ChunkStore)
    (order : List (Voxel × Face)) (c : Chunk) (p : Nat × Nat × Nat)
    (voxel : Voxel) (i : Nat) (hi : i < 6) (st st' : MeshData)
    (h : faceStep chunks order c p voxel st i = some st')
    (ht : IsFaceTrace st) : IsFaceTrace st' := by
  have hc : (FACE_VERTICES.getD i []).length = 4 := by
    interval_cases i <;> rfl
  unfold faceStep at h
  simp only [Option.bind_eq_bind, Option.bind_eq_some] at h
  obtain ⟨solid, hsol, h⟩ := h
  cases solid with
  | true =>
    rw [if_pos rfl] at h
    have h' := Option.some.inj h
    subst h'
    exact ht
  | false =>
    rw [if_neg (by simp)] at h
    revert h
    cases hti : get_texture_index order voxel
        (FACE_NORMALS.getD i (Face.up, (0, 0, 0))).1 with
    | none => intro h; simp at h
    | some ti =>
      intro h
      simp only [Option.bind_eq_bind, Option.bind_eq_some] at h
      obtain ⟨ao, _, h⟩ := h
      have h' := Option.some.inj h
      subst h'
      exact emitFace_trace _ _ _ _ _ _ _ hc ht

theorem foldlM_faceStep_trace (chunks : ChunkStore)
    (order : List (Voxel × Face)) (c : Chunk) (p : Nat × Nat × Nat)
    (voxel : Voxel) (L : List Nat) (hL : ∀ i ∈ L, i < 6) :
    ∀ st st', L.foldlM (faceStep chunks order c p voxel) st = some st' →
      IsFaceTrace st → IsFaceTrace st' := by
  induction L with
  | nil =>
    intro st st' h ht
    have h' := Option.some.inj h
    subst h'
    exact ht
  | cons i L ih =>
    intro st st' h ht
    rw [List.foldlM_cons] at h
    simp only [Option.bind_eq_bind, Option.bind_eq_some] at h
    obtain ⟨st1, h1, h2⟩ := h
    exact ih (fun j hj => hL j (List.mem_cons_of_mem i hj)) st1 st' h2
      (faceStep_trace chunks order c p voxel i
        (hL i (List.mem_cons_self i L)) st st1 h1 ht)

/-- `add_block` preserves the face-trace shape. -/
theorem add_block_trace (chunks : ChunkStore) (order : List (Voxel × Face))
    (c : Chunk) (st st' : MeshData) (p : Nat × Nat × Nat)
    (h : add_block chunks order c st p = some st')
    (ht : IsFaceTrace st) : IsFaceTrace st' := by
  unfold add_block at h
  simp only [Option.bind_eq_bind, Option.bind_eq_some] at h
  obtain ⟨full, hfull, h⟩ := h
  cases full with
  | false =>
    rw [if_pos (by decide)] at h
    have h' := Option.some.inj h
    subst h'
    exact ht
  | true =>
    rw [if_neg (by decide)] at h
    exact foldlM_faceStep_trace chunks order c p _ _
      (by intro i hi; simpa [FACE_NORMALS] using List.mem_range.mp hi)
      st st' h ht

end ChunkMesher

/-- Claim C7: for every face the mesher emits, exactly 4 vertices and 6
indices are appended, the index buffer after `n` faces is the pattern
`[0,1,2,2,3,0]` shifted by `4k` for the `k`-th face, the code's offset
(second-to-last existing index plus one, or zero) equals the running vertex
count `4n` on every such buffer, and every mesh state the builder reaches
from a whole-face trace (in particular from the empty state) is again a
whole-face trace. -/
theorem c7_face_indices_pattern :
    (∀ (c : Chunk) (p : Nat × Nat × Nat) (normal : Int × Int × Int)
        (ti : Nat) (ao : List Nat) (corners : List (ℚ × ℚ × ℚ))
        (st : MeshData), corners.length = 4 →
      (ChunkMesher.emitFace c p normal ti ao corners st).1.length =
          st.1.length + 4 ∧
        (ChunkMesher.emitFace c p normal ti ao corners st).2.length =
          st.2.length + 6) ∧
    (∀ n, ChunkMesher.appendFaceIndices (ChunkMesher.patternIndices n) =
        ChunkMesher.patternIndices (n + 1) ∧
      ChunkMesher.indexOffset (ChunkMesher.patternIndices n) = 4 * n) ∧
    (∀ (chunks : ChunkStore) (order : List (Voxel × Face)) (c : Chunk)
        (ps : List (Nat × Nat × Nat)) (st st' : MeshData),
      ps.foldlM (ChunkMesher.add_block chunks order c) st = some st' →
      ChunkMesher.IsFaceTrace st → ChunkMesher.IsFaceTrace st') := by
  refine ⟨fun c p normal ti ao corners st hc =>
      ChunkMesher.emitFace_lengths c p normal ti ao corners st hc,
    fun n => ⟨ChunkMesher.appendFaceIndices_patternIndices n,
      ChunkMesher.indexOffset_patternIndices n⟩, ?_⟩
  intro chunks order c ps
  induction ps with
  | nil =>
    intro st st' h ht
    have h' := Option.some.inj h
    subst h'
    exact ht
  | cons p ps ih =>
    intro st st' h ht
    rw [List.foldlM_cons] at h
    simp only [Option.bind_eq_bind, Option.bind_eq_some] at h
    obtain ⟨st1, h1, h2⟩ := h
    exact ih st1 st' h2
      (ChunkMesher.add_block_trace chunks order c st st1 p h1 ht)

/-! ## Closed forms for the chunk manager phases -/

theorem insert_keys_nodup {α : Type} (s : List (Coord × α)) (k : Coord)
    (v : α) (h : (s.map Prod.fst).Nodup) :
    (((k, v) :: s.filter (fun e => ¬ e.1 = k)).map Prod.fst).Nodup := by
  rw [List.map_cons]
  refine List.Nodup.cons ?_ (((List.filter_sublist s).map Prod.fst).nodup h)
  intro hk
  obtain ⟨e, he, hp⟩ := List.mem_map.mp hk
  exact absurd (hp.symm ▸ (List.mem_filter.mp he).2) (by simp)

theorem storeInsert_keys_nodup (s : ChunkStore) (k : Coord) (v : Chunk)
    (h : (s.map Prod.fst).Nodup) :
    ((storeInsert s k v).map Prod.fst).Nodup :=
  insert_keys_nodup s k v h

theorem meshInsert_keys_nodup (s : List (Coord × MeshData)) (k : Coord)
    (v : MeshData) (h : (s.map Prod.fst).Nodup) :
    ((meshInsert s k v).map Prod.fst).Nodup :=
  insert_keys_nodup s k v h

namespace ChunkManager

/-- Fields the gen-drain loop does not touch. -/
theorem drainGen_foldl_frame (L : List Chunk) :
    ∀ st : ChunkManager,
      (L.foldl genDrainStep st).load_queue = st.load_queue ∧
      (L.foldl genDrainStep st).build_queue = st.build_queue ∧
      (L.foldl genDrainStep st).unuploaded_meshes = st.unuploaded_meshes ∧
      (L.foldl genDrainStep st).uploaded_meshes = st.uploaded_meshes ∧
      (L.foldl genDrainStep st).currently_meshing = st.currently_meshing ∧
      (L.foldl genDrainStep st).mesh_channel = st.mesh_channel ∧
      (L.foldl genDrainStep st).chunk_channel = st.chunk_channel ∧
      (L.foldl genDrainStep st).current_chunk = st.current_chunk := by
  induction L with
  | nil => intro st; exact ⟨rfl, rfl, rfl, rfl, rfl, rfl, rfl, rfl⟩
  | cons c L ih => intro st; exact ih (genDrainStep st c)

/-- Draining adds exactly the drained chunks' positions to the store keys. -/
theorem drainGen_foldl_chunks_mem (L : List Chunk) :
    ∀ (st : ChunkManager) (p : Coord),
      p ∈ (L.foldl genDrainStep st).chunks.map Prod.fst ↔
        p ∈ st.chunks.map Prod.fst ∨ p ∈ L.map Chunk.position := by
  induction L with
  | nil => intro st p; simp
  | cons c L ih =>
    intro st p
    rw [List.foldl_cons, ih]
    unfold genDrainStep
    rw [mem_storeInsert_map_fst]
    simp only [List.map_cons, List.mem_cons]
    tauto

/-- Draining removes exactly the drained chunks' positions from the
in-flight set. -/
theorem drainGen_foldl_gen_mem (L : List Chunk) :
    ∀ (st : ChunkManager) (p : Coord),
      p ∈ (L.foldl genDrainStep st).currently_generating ↔
        p ∈ st.currently_generating ∧ p ∉ L.map Chunk.position := by
  induction L with
  | nil => intro st p; simp
  | cons c L ih =>
    intro st p
    rw [List.foldl_cons, ih]
    unfold genDrainStep
    rw [mem_setRemove]
    simp only [List.map_cons, List.mem_cons]
    tauto

theorem drainGen_foldl_chunks_nodup (L : List Chunk) :
    ∀ st : ChunkManager, (st.chunks.map Prod.fst).Nodup →
      ((L.foldl genDrainStep st).chunks.map Prod.fst).Nodup := by
  induction L with
  | nil => intro st h; exact h
  | cons c L ih =>
    intro st h
    exact ih (genDrainStep st c) (storeInsert_keys_nodup _ _ _ h)

theorem drainGen_foldl_gen_nodup (L : List Chunk) :
    ∀ st : ChunkManager, st.currently_generating.Nodup →
      (L.foldl genDrainStep st).currently_generating.Nodup := by
  induction L with
  | nil => intro st h; exact h
  | cons c L ih =>
    intro st h
    exact ih (genDrainStep st c) (setRemove_nodup _ _ h)

/-- Draining never rebinds a key that is not among the drained positions. -/
theorem drainGen_foldl_get_preserved (L : List Chunk) :
    ∀ (st : ChunkManager) (q : Coord) (v : Chunk),
      q ∉ L.map Chunk.position → storeGet st.chunks q = some v →
      storeGet (L.foldl genDrainStep st).chunks q = some v := by
  induction L with
  | nil => intro st q v _ h; exact h
  | cons c L ih =>
    intro st q v hq h
    simp only [List.map_cons, List.mem_cons] at hq
    push_neg at hq
    refine ih (genDrainStep st c) q v hq.2 ?_
    show storeGet (storeInsert st.chunks c.position c) q = some v
    rw [storeGet_storeInsert_ne _ _ _ _ hq.1]
    exact h

/-- The generation worker produces a chunk keyed by the requested
coordinate. -/
theorem genChunk_position (sampler : Int → Int → ℚ) (p : Coord) :
    (genChunk sampler p).position = p := rfl

/-- Fields the gen-dispatch loop does not touch. -/
theorem dispatchGen_foldl_frame (sampler : Int → Int → ℚ) (L : List Coord) :
    ∀ st : ChunkManager,
      (L.foldl (genDispatchStep sampler) st).load_queue = st.load_queue ∧
      (L.foldl (genDispatchStep sampler) st).build_queue = st.build_queue ∧
      (L.foldl (genDispatchStep sampler) st).unuploaded_meshes =
        st.unuploaded_meshes ∧
      (L.foldl (genDispatchStep sampler) st).uploaded_meshes =
        st.uploaded_meshes ∧
      (L.foldl (genDispatchStep sampler) st).currently_meshing =
        st.currently_meshing ∧
      (L.foldl (genDispatchStep sampler) st).mesh_channel = st.mesh_channel ∧
      (L.foldl (genDispatchStep sampler) st).chunks = st.chunks ∧
      (L.foldl (genDispatchStep sampler) st).current_chunk =
        st.current_chunk := by
  induction L with
  | nil => intro st; exact ⟨rfl, rfl, rfl, rfl, rfl, rfl, rfl, rfl⟩
  | cons p L ih => intro st; exact ih (genDispatchStep sampler st p)

/-- Dispatching marks exactly the dispatched coordinates in-flight. -/
theorem dispatchGen_foldl_gen_mem (sampler : Int → Int → ℚ) (L : List Coord) :
    ∀ (st : ChunkManager) (p : Coord),
      p ∈ (L.foldl (genDispatchStep sampler) st).currently_generating ↔
        p ∈ st.currently_generating ∨ p ∈ L := by
  induction L with
  | nil => intro st p; simp
  | cons q L ih =>
    intro st p
    rw [List.foldl_cons, ih]
    unfold genDispatchStep
    rw [mem_setInsert]
    simp only [List.mem_cons]
    tauto

theorem dispatchGen_foldl_gen_nodup (sampler : Int → Int → ℚ)
    (L : List Coord) :
    ∀ st : ChunkManager, st.currently_generating.Nodup →
      (L.foldl (genDispatchStep sampler) st).currently_generating.Nodup := by
  induction L with
  | nil => intro st h; exact h
  | cons q L ih =>
    intro st h
    exact ih (genDispatchStep sampler st q) (setInsert_nodup _ _ h)

/-- Dispatching appends exactly the dispatched jobs' results (in order) to
the generation channel. -/
theorem dispatchGen_foldl_channel (sampler : Int → Int → ℚ) (L : List Coord) :
    ∀ st : ChunkManager,
      (L.foldl (genDispatchStep sampler) st).chunk_channel =
        st.chunk_channel ++ L.map (genChunk sampler) := by
  induction L with
  | nil => intro st; simp
  | cons q L ih =>
    intro st
    rw [List.foldl_cons, ih]
    unfold genDispatchStep
    simp

/-- Closed form of a successful mesh-result drain: the drained coordinates
move from the in-flight set into the unuploaded store, everything else is
untouched, and key-set `Nodup` is preserved. -/
theorem drainMesh_foldlM_spec (L : List (Coord × MeshData)) :
    ∀ st st' : ChunkManager, L.foldlM meshDrainStep st = some st' →
      st'.chunks = st.chunks ∧
      st'.load_queue = st.load_queue ∧
      st'.build_queue = st.build_queue ∧
      st'.currently_generating = st.currently_generating ∧
      st'.chunk_channel = st.chunk_channel ∧
      st'.uploaded_meshes = st.uploaded_meshes ∧
      st'.mesh_channel = st.mesh_channel ∧
      st'.current_chunk = st.current_chunk ∧
      (∀ p, p ∈ st'.unuploaded_meshes.map Prod.fst ↔
        p ∈ st.unuploaded_meshes.map Prod.fst ∨ p ∈ L.map Prod.fst) ∧
      (∀ p, p ∈ st'.currently_meshing ↔
        p ∈ st.currently_meshing ∧ p ∉ L.map Prod.fst) ∧
      ((st.unuploaded_meshes.map Prod.fst).Nodup →
        (st'.unuploaded_meshes.map Prod.fst).Nodup) ∧
      (st.currently_meshing.Nodup → st'.currently_meshing.Nodup) := by
  induction L with
  | nil =>
    intro st st' h
    have h' := Option.some.inj h
    subst h'
    refine ⟨rfl, rfl, rfl, rfl, rfl, rfl, rfl, rfl, ?_, ?_, id, id⟩
    · intro p; simp
    · intro p; simp
  | cons q L ih =>
    intro st st' h
    rw [List.foldlM_cons] at h
    simp only [Option.bind_eq_bind, Option.bind_eq_some] at h
    obtain ⟨st1, hstep, hrest⟩ := h
    unfold meshDrainStep at hstep
    split at hstep
    · exact absurd hstep (by simp)
    · have h1 := Option.some.inj hstep
      subst h1
      obtain ⟨ic, ilq, ibq, igen, igc, iup, imc, icc, iunup, imesh, indup,
        imnd⟩ := ih _ st' hrest
      refine ⟨ic, ilq, ibq, igen, igc, iup, imc, icc, ?_, ?_, ?_, ?_⟩
      · intro p
        rw [iunup p]
        show (p ∈ (meshInsert st.unuploaded_meshes q.1 q.2).map Prod.fst ∨ _)
          ↔ _
        rw [mem_meshInsert_map_fst]
        simp only [List.map_cons, List.mem_cons]
        tauto
      · intro p
        rw [imesh p]
        show (p ∈ setRemove st.currently_meshing q.1 ∧ _) ↔ _
        rw [mem_setRemove]
        simp only [List.map_cons, List.mem_cons]
        tauto
      · intro h
        exact indup (meshInsert_keys_nodup _ _ _ h)
      · intro h
        exact imnd (setRemove_nodup _ _ h)

/-- Closed form of a successful mesh-dispatch loop: of the drained entries,
exactly those with resident chunk data are dispatched (marked in-flight,
job result appended to the mesh channel, in order), and exactly the others
are collected for re-insertion; the chunk store and every other field are
untouched. -/
theorem dispatchMesh_foldlM_spec (order : List (Voxel × Face))
    (L : List Coord) :
    ∀ (acc : List Coord × ChunkManager) (res : List Coord × ChunkManager),
      L.foldlM (meshDispatchStep order) acc = some res →
      res.2.chunks = acc.2.chunks ∧
      res.2.load_queue = acc.2.load_queue ∧
      res.2.build_queue = acc.2.build_queue ∧
      res.2.currently_generating = acc.2.currently_generating ∧
      res.2.chunk_channel = acc.2.chunk_channel ∧
      res.2.unuploaded_meshes = acc.2.unuploaded_meshes ∧
      res.2.uploaded_meshes = acc.2.uploaded_meshes ∧
      res.2.current_chunk = acc.2.current_chunk ∧
      res.2.mesh_channel.map Prod.fst = acc.2.mesh_channel.map Prod.fst ++
        L.filter (fun p => (storeGet acc.2.chunks p).isSome) ∧
      res.1 = acc.1 ++
        L.filter (fun p => !(storeGet acc.2.chunks p).isSome) ∧
      (∀ p, p ∈ res.2.currently_meshing ↔
        p ∈ acc.2.currently_meshing ∨
          p ∈ L.filter (fun p => (storeGet acc.2.chunks p).isSome)) ∧
      (acc.2.currently_meshing.Nodup → res.2.currently_meshing.Nodup) := by
  induction L with
  | nil =>
    intro acc res h
    have h' := Option.some.inj h
    subst h'
    refine ⟨rfl, rfl, rfl, rfl, rfl, rfl, rfl, rfl, by simp, by simp,
      fun p => by simp, id⟩
  | cons q L ih =>
    intro acc res h
    rw [List.foldlM_cons] at h
    simp only [Option.bind_eq_bind, Option.bind_eq_some] at h
    obtain ⟨acc1, hstep, hrest⟩ := h
    unfold meshDispatchStep at hstep
    split at hstep
    · -- resident: the job is dispatched
      rename_i hres
      split at hstep
      · exact absurd hstep (by simp)
      · rename_i mesh hbuild
        have h1 := Option.some.inj hstep
        subst h1
        obtain ⟨ic, ilq, ibq, igen, igc, iunup, iup, icc, imc, irl, imesh,
          imnd⟩ := ih _ res hrest
        dsimp only at ic ilq ibq igen igc iunup iup icc imc irl imesh imnd
        rw [show List.filter (fun p => (storeGet acc.2.chunks p).isSome)
              (q :: L) =
            q :: List.filter (fun p => (storeGet acc.2.chunks p).isSome) L
            from by simp only [List.filter_cons, hres]; simp,
          show List.filter (fun p => !(storeGet acc.2.chunks p).isSome)
              (q :: L) =
            List.filter (fun p => !(storeGet acc.2.chunks p).isSome) L
            from by simp only [List.filter_cons, hres]; simp]
        refine ⟨ic, ilq, ibq, igen, igc, iunup, iup, icc, ?_, ?_, ?_, ?_⟩
        · rw [imc]
          simp
        · rw [irl]
        · intro p
          rw [imesh p, mem_setInsert]
          simp only [List.mem_cons]
          tauto
        · intro h
          exact imnd (setInsert_nodup _ _ h)
    · -- not resident: the entry is collected for re-insertion
      rename_i hres
      have h1 := Option.some.inj hstep
      subst h1
      obtain ⟨ic, ilq, ibq, igen, igc, iunup, iup, icc, imc, irl, imesh,
        imnd⟩ := ih _ res hrest
      dsimp only at ic ilq ibq igen igc iunup iup icc imc irl imesh imnd
      have hres' : (storeGet acc.2.chunks q).isSome = false := by
        simpa using hres
      rw [show List.filter (fun p => (storeGet acc.2.chunks p).isSome)
            (q :: L) =
          List.filter (fun p => (storeGet acc.2.chunks p).isSome) L
          from by simp only [List.filter_cons, hres']; simp,
        show List.filter (fun p => !(storeGet acc.2.chunks p).isSome)
            (q :: L) =
          q :: List.filter (fun p => !(storeGet acc.2.chunks p).isSome) L
          from by simp only [List.filter_cons, hres']; simp]
      refine ⟨ic, ilq, ibq, igen, igc, iunup, iup, icc, imc, ?_, imesh,
        imnd⟩
      rw [irl]
      simp

end ChunkManager

/-! ## Claim C4 (duplicate mesh results are fatal) -/

/-- `meshDrainStep` only ever grows the unuploaded key set and never touches
the uploaded store. -/
theorem meshDrainStep_mono (st st' : ChunkManager) (pm : Coord × MeshData)
    (h : ChunkManager.meshDrainStep st pm = some st') (p : Coord)
    (hp : meshContains st.unuploaded_meshes p = true ∨
      meshContains st.uploaded_meshes p = true) :
    meshContains st'.unuploaded_meshes p = true ∨
      meshContains st'.uploaded_meshes p = true := by
  unfold ChunkManager.meshDrainStep at h
  split at h
  · exact absurd h (by simp)
  · have h' := Option.some.inj h
    subst h'
    rcases hp with hp | hp
    · exact Or.inl (by
        rw [meshContains_iff] at hp ⊢
        exact (mem_meshInsert_map_fst _ _ _ _).mpr (Or.inr hp))
    · exact Or.inr hp

/-- Claim C4: if any drained mesh result's coordinate already has a resident
mesh (unuploaded or uploaded) at the time it is processed — in particular if
it is resident when the drain starts — the `assert!` fires and the drain
panics (`none`); the result is never silently dropped or absorbed. -/
theorem c4_duplicate_mesh_result_is_fatal (s : ChunkManager)
    (arrivals : List (Coord × MeshData)) (p : Coord) (m : MeshData)
    (hmem : (p, m) ∈ arrivals)
    (hres : meshContains s.unuploaded_meshes p = true ∨
      meshContains s.uploaded_meshes p = true) :
    ChunkManager.drainMeshResults arrivals s = none := by
  unfold ChunkManager.drainMeshResults
  have key : ∀ (L : List (Coord × MeshData)) (st : ChunkManager),
      (p, m) ∈ L →
      (meshContains st.unuploaded_meshes p = true ∨
        meshContains st.uploaded_meshes p = true) →
      L.foldlM ChunkManager.meshDrainStep st = none := by
    intro L
    induction L with
    | nil => intro st h; exact absurd h (List.not_mem_nil _)
    | cons q L ih =>
      intro st hmem hres
      rw [List.foldlM_cons]
      rcases List.mem_cons.mp hmem with rfl | hmem
      · have : ChunkManager.meshDrainStep st (p, m) = none := by
          unfold ChunkManager.meshDrainStep
          rw [if_pos (by simpa using hres)]
        rw [this]
        rfl
      · cases hstep : ChunkManager.meshDrainStep st q with
        | none => rfl
        | some st1 =>
          simp only [Option.bind_eq_bind, Option.some_bind]
          exact ih st1 hmem (meshDrainStep_mono st st1 q hstep p hres)
  exact key arrivals _ hmem hres

/-- Witness for C4: a drained result for (0,0) whose mesh is already in the
unuploaded store makes the drain panic. -/
theorem c4_witness :
    ChunkManager.drainMeshResults [((0, 0), ([], []))]
      { ChunkManager.new with
        unuploaded_meshes := [((0, 0), ([], []))] } = none := by
  exact c4_duplicate_mesh_result_is_fatal _ _ (0, 0) ([], [])
    (List.mem_cons_self _ _) (Or.inl (by decide))

/-! ## Claim C3 (mesh jobs require resident voxel data; re-queue, not drop) -/

/-- Claim C3: in the dispatch phase of `build_meshes`, of the (up to
`MAX_CHUNK_MESH_GENERATION_PER_FRAME`) drained build-queue entries, exactly
those whose chunk data is resident are dispatched to the mesh pool (every
coordinate newly appearing in the mesh channel is resident at dispatch
time), and exactly the non-resident ones are re-appended, in order, to the
back of the build queue — never dropped. -/
theorem c3_mesh_dispatch_requires_resident (order : List (Voxel × Face))
    (s s' : ChunkManager)
    (h : ChunkManager.dispatchMesh order s = some s') :
    s'.mesh_channel.map Prod.fst = s.mesh_channel.map Prod.fst ++
      (s.build_queue.take
          (min MAX_CHUNK_MESH_GENERATION_PER_FRAME s.build_queue.length)).filter
        (fun p => (storeGet s.chunks p).isSome) ∧
    s'.build_queue = s.build_queue.drop
        (min MAX_CHUNK_MESH_GENERATION_PER_FRAME s.build_queue.length) ++
      (s.build_queue.take
          (min MAX_CHUNK_MESH_GENERATION_PER_FRAME s.build_queue.length)).filter
        (fun p => !(storeGet s.chunks p).isSome) ∧
    (∀ p, p ∈ s'.mesh_channel.map Prod.fst →
      p ∈ s.mesh_channel.map Prod.fst ∨ (storeGet s.chunks p).isSome) := by
  unfold ChunkManager.dispatchMesh at h
  simp only [Option.bind_eq_bind, Option.bind_eq_some] at h
  obtain ⟨st, hfold, hret⟩ := h
  have h' := Option.some.inj hret
  subst h'
  obtain ⟨ic, _, ibq, _, _, _, _, _, imc, irl, _, _⟩ :=
    ChunkManager.dispatchMesh_foldlM_spec order _ _ _ hfold
  dsimp only at ic ibq imc irl
  refine ⟨?_, ?_, ?_⟩
  · exact imc
  · show st.2.build_queue ++ st.1 = _
    rw [ibq, irl]
    simp
  · intro p hp
    rw [imc] at hp
    rcases List.mem_append.mp hp with hp | hp
    · exact Or.inl hp
    · exact Or.inr (of_decide_eq_true (by
        simpa using (List.mem_filter.mp hp).2))

/-- Witness for C3: a queued coordinate with no resident chunk data is
re-appended to the build queue and nothing is dispatched. -/
theorem c3_witness :
    ∃ s', ChunkManager.dispatchMesh []
        { ChunkManager.new with build_queue := [(5, 5)] } = some s' ∧
      s'.build_queue = [(5, 5)] ∧ s'.mesh_channel.map Prod.fst = [] := by
  refine ⟨_, rfl, ?_, ?_⟩
  · have h := c3_mesh_dispatch_requires_resident []
      { ChunkManager.new with build_queue := [(5, 5)] } _ rfl
    rw [h.2.1]
    decide
  · have h := c3_mesh_dispatch_requires_resident []
      { ChunkManager.new with build_queue := [(5, 5)] } _ rfl
    rw [h.1]
    decide

/-! ## Frame lemmas for the enqueue pass and phase composition -/

namespace ChunkManager

/-- `considerCandidate` only ever touches the two queues. -/
theorem considerCandidate_frame (st : ChunkManager) (nd : Coord × Nat) :
    (considerCandidate st nd).chunks = st.chunks ∧
    (considerCandidate st nd).unuploaded_meshes = st.unuploaded_meshes ∧
    (considerCandidate st nd).uploaded_meshes = st.uploaded_meshes ∧
    (considerCandidate st nd).currently_generating =
      st.currently_generating ∧
    (considerCandidate st nd).currently_meshing = st.currently_meshing ∧
    (considerCandidate st nd).chunk_channel = st.chunk_channel ∧
    (considerCandidate st nd).mesh_channel = st.mesh_channel ∧
    (considerCandidate st nd).current_chunk = st.current_chunk := by
  unfold considerCandidate considerLoad considerBuild
  dsimp only
  split <;> split <;> (try split) <;>
    exact ⟨rfl, rfl, rfl, rfl, rfl, rfl, rfl, rfl⟩

/-- A fold of `considerCandidate` only ever touches the two queues. -/
theorem foldl_considerCandidate_frame (L : List (Coord × Nat)) :
    ∀ st : ChunkManager,
      (L.foldl considerCandidate st).chunks = st.chunks ∧
      (L.foldl considerCandidate st).unuploaded_meshes =
        st.unuploaded_meshes ∧
      (L.foldl considerCandidate st).uploaded_meshes = st.uploaded_meshes ∧
      (L.foldl considerCandidate st).currently_generating =
        st.currently_generating ∧
      (L.foldl considerCandidate st).currently_meshing =
        st.currently_meshing ∧
      (L.foldl considerCandidate st).chunk_channel = st.chunk_channel ∧
      (L.foldl considerCandidate st).mesh_channel = st.mesh_channel ∧
      (L.foldl considerCandidate st).current_chunk = st.current_chunk := by
  induction L with
  | nil => intro st; exact ⟨rfl, rfl, rfl, rfl, rfl, rfl, rfl, rfl⟩
  | cons nd L ih =>
    intro st
    rw [List.foldl_cons]
    have hstep := considerCandidate_frame st nd
    have hrec := ih (considerCandidate st nd)
    exact ⟨hrec.1.trans hstep.1,
      hrec.2.1.trans hstep.2.1,
      hrec.2.2.1.trans hstep.2.2.1,
      hrec.2.2.2.1.trans hstep.2.2.2.1,
      hrec.2.2.2.2.1.trans hstep.2.2.2.2.1,
      hrec.2.2.2.2.2.1.trans hstep.2.2.2.2.2.1,
      hrec.2.2.2.2.2.2.1.trans hstep.2.2.2.2.2.2.1,
      hrec.2.2.2.2.2.2.2.trans hstep.2.2.2.2.2.2.2⟩

/-- The enqueue pass only ever touches the two queues. -/
theorem queue_surrounding_frame (s : ChunkManager) :
    (queue_surrounding_chunks s).chunks = s.chunks ∧
    (queue_surrounding_chunks s).unuploaded_meshes = s.unuploaded_meshes ∧
    (queue_surrounding_chunks s).uploaded_meshes = s.uploaded_meshes ∧
    (queue_surrounding_chunks s).currently_generating =
      s.currently_generating ∧
    (queue_surrounding_chunks s).currently_meshing = s.currently_meshing ∧
    (queue_surrounding_chunks s).chunk_channel = s.chunk_channel ∧
    (queue_surrounding_chunks s).mesh_channel = s.mesh_channel ∧
    (queue_surrounding_chunks s).current_chunk = s.current_chunk := by
  unfold queue_surrounding_chunks
  cases hc : s.current_chunk with
  | none => exact ⟨rfl, rfl, rfl, rfl, rfl, rfl, rfl, hc⟩
  | some pc =>
    have h := foldl_considerCandidate_frame
      (sortedNeighbors CHUNK_LOAD_RADIUS CHUNK_LOAD_PADDING pc) s
    exact ⟨h.1, h.2.1, h.2.2.1, h.2.2.2.1, h.2.2.2.2.1, h.2.2.2.2.2.1,
      h.2.2.2.2.2.2.1, h.2.2.2.2.2.2.2.trans hc⟩

/-- `load_chunks` does not change the recorded focal chunk. -/
theorem load_chunks_current (sampler : Int → Int → ℚ) (s : ChunkManager) :
    (load_chunks sampler s).current_chunk = s.current_chunk := by
  unfold load_chunks dispatchGen
  dsimp only
  rw [(dispatchGen_foldl_frame sampler _ _).2.2.2.2.2.2.2]
  show (drainGenResults s).current_chunk = _
  unfold drainGenResults
  rw [(drainGen_foldl_frame _ _).2.2.2.2.2.2.2]

/-- A successful `build_meshes` does not change the recorded focal chunk. -/
theorem build_meshes_current (order : List (Voxel × Face))
    (s s' : ChunkManager) (h : build_meshes order s = some s') :
    s'.current_chunk = s.current_chunk := by
  unfold build_meshes at h
  rw [Option.bind_eq_some] at h
  obtain ⟨s1, hdrain, hdisp⟩ := h
  have h1 := (drainMesh_foldlM_spec _ _ _ hdrain).2.2.2.2.2.2.2.1
  unfold dispatchMesh at hdisp
  simp only [Option.bind_eq_bind, Option.bind_eq_some] at hdisp
  obtain ⟨st, hfold, hret⟩ := hdisp
  have h2 := (dispatchMesh_foldlM_spec order _ _ _ hfold).2.2.2.2.2.2.2.1
  have h' := Option.some.inj hret
  subst h'
  dsimp only at h2 ⊢
  rw [h2, h1]

end ChunkManager

/-! ## Claim C2 (scheduler state invariant) -/

namespace ChunkManager

/-- The inductive invariant of the scheduler state: each coordinate is in at
most one container of the load pipeline and at most one of the mesh
pipeline, each container is duplicate-free, and the undrained channel
results are keyed exactly by the in-flight sets (each dispatched job sends
exactly one result before it is drained). -/
structure Inv (s : ChunkManager) : Prop where
  lq_nd : s.load_queue.Nodup
  gen_nd : s.currently_generating.Nodup
  ck_nd : (s.chunks.map Prod.fst).Nodup
  lq_gen : ∀ p ∈ s.load_queue, p ∉ s.currently_generating
  lq_ck : ∀ p ∈ s.load_queue, p ∉ s.chunks.map Prod.fst
  gen_ck : ∀ p ∈ s.currently_generating, p ∉ s.chunks.map Prod.fst
  gchan : ∀ p, p ∈ s.chunk_channel.map Chunk.position ↔
    p ∈ s.currently_generating
  bq_nd : s.build_queue.Nodup
  mesh_nd : s.currently_meshing.Nodup
  unup_nd : (s.unuploaded_meshes.map Prod.fst).Nodup
  up_nd : (s.uploaded_meshes.map Prod.fst).Nodup
  bq_mesh : ∀ p ∈ s.build_queue, p ∉ s.currently_meshing
  bq_unup : ∀ p ∈ s.build_queue, p ∉ s.unuploaded_meshes.map Prod.fst
  bq_up : ∀ p ∈ s.build_queue, p ∉ s.uploaded_meshes.map Prod.fst
  mesh_unup : ∀ p ∈ s.currently_meshing,
    p ∉ s.unuploaded_meshes.map Prod.fst
  mesh_up : ∀ p ∈ s.currently_meshing, p ∉ s.uploaded_meshes.map Prod.fst
  unup_up : ∀ p ∈ s.unuploaded_meshes.map Prod.fst,
    p ∉ s.uploaded_meshes.map Prod.fst
  mchan : ∀ p, p ∈ s.mesh_channel.map Prod.fst ↔ p ∈ s.currently_meshing

/-- The gen-result drain preserves the invariant. -/
theorem inv_drainGenResults (s : ChunkManager) (hs : Inv s) :
    Inv (drainGenResults s) := by
  unfold drainGenResults
  set base := { s with chunk_channel := ([] : List Chunk) } with hbase
  have hfr := drainGen_foldl_frame s.chunk_channel base
  have hck := drainGen_foldl_chunks_mem s.chunk_channel base
  have hgen := drainGen_foldl_gen_mem s.chunk_channel base
  obtain ⟨flq, fbq, funup, fup, fmesh, fmc, fgc, fcc⟩ := hfr
  have hgen' : ∀ p, p ∉ (s.chunk_channel.foldl genDrainStep
      base).currently_generating := by
    intro p hp
    rw [hgen p] at hp
    exact hp.2 ((hs.gchan p).mpr hp.1)
  refine ⟨?_, ?_, ?_, ?_, ?_, ?_, ?_, ?_, ?_, ?_, ?_, ?_, ?_, ?_, ?_, ?_,
    ?_, ?_⟩
  · rw [flq]; exact hs.lq_nd
  · exact drainGen_foldl_gen_nodup _ _ hs.gen_nd
  · exact drainGen_foldl_chunks_nodup _ _ hs.ck_nd
  · intro p _; exact hgen' p
  · intro p hp
    rw [flq] at hp
    rw [hck p]
    rintro (h | h)
    · exact hs.lq_ck p hp h
    · exact hs.lq_gen p hp ((hs.gchan p).mp h)
  · intro p hp; exact absurd hp (hgen' p)
  · intro p
    rw [fgc]
    constructor
    · intro h; exact absurd h (by simp)
    · intro h; exact absurd h (hgen' p)
  · rw [fbq]; exact hs.bq_nd
  · rw [fmesh]; exact hs.mesh_nd
  · rw [funup]; exact hs.unup_nd
  · rw [fup]; exact hs.up_nd
  · intro p hp; rw [fbq] at hp; rw [fmesh]; exact hs.bq_mesh p hp
  · intro p hp; rw [fbq] at hp; rw [funup]; exact hs.bq_unup p hp
  · intro p hp; rw [fbq] at hp; rw [fup]; exact hs.bq_up p hp
  · intro p hp; rw [fmesh] at hp; rw [funup]; exact hs.mesh_unup p hp
  · intro p hp; rw [fmesh] at hp; rw [fup]; exact hs.mesh_up p hp
  · intro p hp; rw [funup] at hp; rw [fup]; exact hs.unup_up p hp
  · intro p; rw [fmc, fmesh]; exact hs.mchan p

/-- The gen-dispatch loop preserves the invariant. -/
theorem inv_dispatchGen (sampler : Int → Int → ℚ) (s : ChunkManager)
    (hs : Inv s) : Inv (dispatchGen sampler s) := by
  unfold dispatchGen
  set k := min MAX_CHUNK_DATA_GENERATION_PER_FRAME s.load_queue.length
    with hk
  set base := { s with load_queue := s.load_queue.drop k } with hbase
  set D := s.load_queue.take k with hD
  have hfr := dispatchGen_foldl_frame sampler D base
  obtain ⟨flq, fbq, funup, fup, fmesh, fmc, fck, fcc⟩ := hfr
  have hgen := dispatchGen_foldl_gen_mem sampler D base
  have hchan := dispatchGen_foldl_channel sampler D base
  have hDlq : ∀ p ∈ D, p ∈ s.load_queue := fun p hp =>
    List.take_subset k s.load_queue hp
  have hdroplq : ∀ p ∈ s.load_queue.drop k, p ∈ s.load_queue := fun p hp =>
    List.drop_subset k s.load_queue hp
  have hdisj : ∀ p ∈ s.load_queue.drop k, p ∉ D := by
    have h := hs.lq_nd
    rw [← List.take_append_drop k s.load_queue, List.nodup_append] at h
    intro p hp hpD
    exact h.2.2 hpD hp
  have hchan' : ∀ p,
      p ∈ (D.foldl (genDispatchStep sampler) base).chunk_channel.map
        Chunk.position ↔ p ∈ s.chunk_channel.map Chunk.position ∨ p ∈ D := by
    intro p
    rw [hchan]
    rw [List.map_append, List.mem_append]
    constructor
    · rintro (h | h)
      · exact Or.inl h
      · refine Or.inr ?_
        obtain ⟨c, hc, hpc⟩ := List.mem_map.mp h
        obtain ⟨q, hq, hqc⟩ := List.mem_map.mp hc
        rw [← hpc, ← hqc, genChunk_position]
        exact hq
    · rintro (h | h)
      · exact Or.inl h
      · exact Or.inr (List.mem_map.mpr ⟨genChunk sampler p,
          List.mem_map.mpr ⟨p, h, rfl⟩, genChunk_position sampler p⟩)
  refine ⟨?_, ?_, ?_, ?_, ?_, ?_, ?_, ?_, ?_, ?_, ?_, ?_, ?_, ?_, ?_, ?_,
    ?_, ?_⟩
  · rw [flq]
    exact (List.drop_sublist k s.load_queue).nodup hs.lq_nd
  · exact dispatchGen_foldl_gen_nodup sampler D base hs.gen_nd
  · rw [fck]; exact hs.ck_nd
  · intro p hp
    rw [flq] at hp
    rw [hgen p]
    rintro (h | h)
    · exact hs.lq_gen p (hdroplq p hp) h
    · exact hdisj p hp h
  · intro p hp
    rw [flq] at hp
    rw [fck]
    exact hs.lq_ck p (hdroplq p hp)
  · intro p hp
    rw [fck]
    rw [hgen p] at hp
    rcases hp with h | h
    · exact hs.gen_ck p h
    · exact hs.lq_ck p (hDlq p h)
  · intro p
    rw [hchan' p, hgen p, hs.gchan p]
  · rw [fbq]; exact hs.bq_nd
  · rw [fmesh]; exact hs.mesh_nd
  · rw [funup]; exact hs.unup_nd
  · rw [fup]; exact hs.up_nd
  · intro p hp; rw [fbq] at hp; rw [fmesh]; exact hs.bq_mesh p hp
  · intro p hp; rw [fbq] at hp; rw [funup]; exact hs.bq_unup p hp
  · intro p hp; rw [fbq] at hp; rw [fup]; exact hs.bq_up p hp
  · intro p hp; rw [fmesh] at hp; rw [funup]; exact hs.mesh_unup p hp
  · intro p hp; rw [fmesh] at hp; rw [fup]; exact hs.mesh_up p hp
  · intro p hp; rw [funup] at hp; rw [fup]; exact hs.unup_up p hp
  · intro p; rw [fmc, fmesh]; exact hs.mchan p

/-- A successful mesh-result drain preserves the invariant. -/
theorem inv_drainMeshResults (s s' : ChunkManager)
    (h : drainMeshResults s.mesh_channel s = some s') (hs : Inv s) :
    Inv s' := by
  unfold drainMeshResults at h
  obtain ⟨ic, ilq, ibq, igen, igc, iup, imc, icc, iunup, imesh, indup,
    imnd⟩ := drainMesh_foldlM_spec s.mesh_channel _ s' h
  dsimp only at ic ilq ibq igen igc iup imc icc iunup imesh indup imnd
  have hmesh' : ∀ p, p ∉ s'.currently_meshing := by
    intro p hp
    rw [imesh p] at hp
    exact hp.2 ((hs.mchan p).mpr hp.1)
  refine ⟨?_, ?_, ?_, ?_, ?_, ?_, ?_, ?_, ?_, ?_, ?_, ?_, ?_, ?_, ?_, ?_,
    ?_, ?_⟩
  · rw [ilq]; exact hs.lq_nd
  · rw [igen]; exact hs.gen_nd
  · rw [ic]; exact hs.ck_nd
  · intro p hp; rw [ilq] at hp; rw [igen]; exact hs.lq_gen p hp
  · intro p hp; rw [ilq] at hp; rw [ic]; exact hs.lq_ck p hp
  · intro p hp; rw [igen] at hp; rw [ic]; exact hs.gen_ck p hp
  · intro p; rw [igc, igen]; exact hs.gchan p
  · rw [ibq]; exact hs.bq_nd
  · exact imnd hs.mesh_nd
  · exact indup hs.unup_nd
  · rw [iup]; exact hs.up_nd
  · intro p _; exact hmesh' p
  · intro p hp
    rw [ibq] at hp
    rw [iunup p]
    rintro (h' | h')
    · exact hs.bq_unup p hp h'
    · exact hs.bq_mesh p hp ((hs.mchan p).mp h')
  · intro p hp; rw [ibq] at hp; rw [iup]; exact hs.bq_up p hp
  · intro p hp; exact absurd hp (hmesh' p)
  · intro p hp; exact absurd hp (hmesh' p)
  · intro p hp
    rw [iunup p] at hp
    rw [iup]
    rcases hp with h' | h'
    · exact hs.unup_up p h'
    · exact hs.mesh_up p ((hs.mchan p).mp h')
  · intro p
    rw [imc]
    constructor
    · intro h'; exact absurd h' (by simp)
    · intro h'; exact absurd h' (hmesh' p)

/-- A successful mesh-dispatch phase preserves the invariant. -/
theorem inv_dispatchMesh (order : List (Voxel × Face)) (s s' : ChunkManager)
    (h : dispatchMesh order s = some s') (hs : Inv s) : Inv s' := by
  unfold dispatchMesh at h
  simp only [Option.bind_eq_bind, Option.bind_eq_some] at h
  obtain ⟨st, hfold, hret⟩ := h
  have h' := Option.some.inj hret
  subst h'
  obtain ⟨ic, ilq, ibq, igen, igc, iunup, iup, icc, imc, irl, imesh,
    imnd⟩ := dispatchMesh_foldlM_spec order _ _ _ hfold
  dsimp only at ic ilq ibq igen igc iunup iup icc imc irl imesh imnd ⊢
  set k := min MAX_CHUNK_MESH_GENERATION_PER_FRAME s.build_queue.length
    with hk
  set T := s.build_queue.take k with hT
  set R := T.filter (fun p => (storeGet s.chunks p).isSome) with hR
  set NR := T.filter (fun p => !(storeGet s.chunks p).isSome) with hNR
  have hTbq : ∀ p ∈ T, p ∈ s.build_queue := fun p hp =>
    List.take_subset k s.build_queue hp
  have hRT : ∀ p ∈ R, p ∈ T := fun p hp => (List.mem_filter.mp hp).1
  have hNRT : ∀ p ∈ NR, p ∈ T := fun p hp => (List.mem_filter.mp hp).1
  have hdropbq : ∀ p ∈ s.build_queue.drop k, p ∈ s.build_queue :=
    fun p hp => List.drop_subset k s.build_queue hp
  have hdisjTD : ∀ p ∈ s.build_queue.drop k, p ∉ T := by
    have hnd := hs.bq_nd
    rw [← List.take_append_drop k s.build_queue, List.nodup_append] at hnd
    intro p hp hpT
    exact hnd.2.2 hpT hp
  have hdisjRNR : ∀ p ∈ NR, p ∉ R := by
    intro p hp hpR
    have h1 := (List.mem_filter.mp hp).2
    have h2 := (List.mem_filter.mp hpR).2
    simp at h1 h2
    rw [h1] at h2
    cases h2
  refine ⟨?_, ?_, ?_, ?_, ?_, ?_, ?_, ?_, ?_, ?_, ?_, ?_, ?_, ?_, ?_, ?_,
    ?_, ?_⟩
  · rw [ilq]; exact hs.lq_nd
  · rw [igen]; exact hs.gen_nd
  · rw [ic]; exact hs.ck_nd
  · intro p hp; rw [ilq] at hp; rw [igen]; exact hs.lq_gen p hp
  · intro p hp; rw [ilq] at hp; rw [ic]; exact hs.lq_ck p hp
  · intro p hp; rw [igen] at hp; rw [ic]; exact hs.gen_ck p hp
  · intro p; rw [igc, igen]; exact hs.gchan p
  · rw [ibq, irl]
    dsimp only
    rw [List.nil_append, List.nodup_append]
    refine ⟨(List.drop_sublist k s.build_queue).nodup hs.bq_nd,
      ((List.filter_sublist T).nodup
        ((List.take_sublist k s.build_queue).nodup hs.bq_nd)), ?_⟩
    intro p hp hp'
    exact hdisjTD p hp (hNRT p hp')
  · exact imnd hs.mesh_nd
  · rw [iunup]; exact hs.unup_nd
  · rw [iup]; exact hs.up_nd
  · intro p hp
    rw [ibq, irl] at hp
    dsimp only at hp
    rw [List.nil_append] at hp
    rw [imesh p]
    have hpbq : p ∈ s.build_queue := by
      rcases List.mem_append.mp hp with h' | h'
      · exact hdropbq p h'
      · exact hTbq p (hNRT p h')
    rintro (h' | h')
    · exact hs.bq_mesh p hpbq h'
    · rcases List.mem_append.mp hp with h'' | h''
      · exact hdisjTD p h'' (hRT p h')
      · exact hdisjRNR p h'' h'
  · intro p hp
    rw [ibq, irl] at hp
    dsimp only at hp
    rw [List.nil_append] at hp
    rw [iunup]
    rcases List.mem_append.mp hp with h' | h'
    · exact hs.bq_unup p (hdropbq p h')
    · exact hs.bq_unup p (hTbq p (hNRT p h'))
  · intro p hp
    rw [ibq, irl] at hp
    dsimp only at hp
    rw [List.nil_append] at hp
    rw [iup]
    rcases List.mem_append.mp hp with h' | h'
    · exact hs.bq_up p (hdropbq p h')
    · exact hs.bq_up p (hTbq p (hNRT p h'))
  · intro p hp
    rw [imesh p] at hp
    rw [iunup]
    rcases hp with h' | h'
    · exact hs.mesh_unup p h'
    · exact hs.bq_unup p (hTbq p (hRT p h'))
  · intro p hp
    rw [imesh p] at hp
    rw [iup]
    rcases hp with h' | h'
    · exact hs.mesh_up p h'
    · exact hs.bq_up p (hTbq p (hRT p h'))
  · intro p hp
    rw [iunup] at hp
    rw [iup]
    exact hs.unup_up p hp
  · intro p
    rw [imc]
    dsimp only
    rw [List.mem_append, imesh p]
    rw [hs.mchan p]

/-- The guarded load-queue push preserves the invariant. -/
theorem inv_considerLoad (st : ChunkManager) (n : Coord) (hs : Inv st) :
    Inv (considerLoad st n) := by
  unfold considerLoad
  split
  · exact hs
  · rename_i hg
    push_neg at hg
    obtain ⟨hA, hB, hC⟩ := hg
    refine ⟨?_, hs.gen_nd, hs.ck_nd, ?_, ?_, hs.gen_ck, hs.gchan,
      hs.bq_nd, hs.mesh_nd, hs.unup_nd, hs.up_nd, hs.bq_mesh, hs.bq_unup,
      hs.bq_up, hs.mesh_unup, hs.mesh_up, hs.unup_up, hs.mchan⟩
    · show (st.load_queue ++ [n]).Nodup
      rw [List.nodup_append]
      refine ⟨hs.lq_nd, List.nodup_singleton n, ?_⟩
      intro p hp hp'
      rw [List.mem_singleton] at hp'
      subst hp'
      exact hB hp
    · intro p hp
      rcases List.mem_append.mp hp with h' | h'
      · exact hs.lq_gen p h'
      · rw [List.mem_singleton] at h'
        subst h'
        exact hC
    · intro p hp
      rcases List.mem_append.mp hp with h' | h'
      · exact hs.lq_ck p h'
      · rw [List.mem_singleton] at h'
        subst h'
        intro hk
        exact hA (by simpa using (storeGet_isSome_iff st.chunks p).mpr hk)

/-- The guarded build-queue push preserves the invariant. -/
theorem inv_considerBuild (st : ChunkManager) (n : Coord) (hs : Inv st) :
    Inv (considerBuild st n) := by
  unfold considerBuild
  split
  · exact hs
  · rename_i hg
    push_neg at hg
    obtain ⟨hU, hP, hB, hM⟩ := hg
    refine ⟨hs.lq_nd, hs.gen_nd, hs.ck_nd, hs.lq_gen, hs.lq_ck, hs.gen_ck,
      hs.gchan, ?_, hs.mesh_nd, hs.unup_nd, hs.up_nd, ?_, ?_, ?_,
      hs.mesh_unup, hs.mesh_up, hs.unup_up, hs.mchan⟩
    · show (st.build_queue ++ [n]).Nodup
      rw [List.nodup_append]
      refine ⟨hs.bq_nd, List.nodup_singleton n, ?_⟩
      intro p hp hp'
      rw [List.mem_singleton] at hp'
      subst hp'
      exact hB hp
    · intro p hp
      rcases List.mem_append.mp hp with h' | h'
      · exact hs.bq_mesh p h'
      · rw [List.mem_singleton] at h'
        subst h'
        exact hM
    · intro p hp
      rcases List.mem_append.mp hp with h' | h'
      · exact hs.bq_unup p h'
      · rw [List.mem_singleton] at h'
        subst h'
        intro hk
        exact hU (by simpa using (meshContains_iff _ p).mpr hk)
    · intro p hp
      rcases List.mem_append.mp hp with h' | h'
      · exact hs.bq_up p h'
      · rw [List.mem_singleton] at h'
        subst h'
        intro hk
        exact hP (by simpa using (meshContains_iff _ p).mpr hk)

theorem inv_considerCandidate (st : ChunkManager) (nd : Coord × Nat)
    (hs : Inv st) : Inv (considerCandidate st nd) := by
  unfold considerCandidate
  dsimp only
  split
  · exact inv_considerLoad st nd.1 hs
  · exact inv_considerBuild _ nd.1 (inv_considerLoad st nd.1 hs)

theorem inv_foldl_considerCandidate (L : List (Coord × Nat)) :
    ∀ s : ChunkManager, Inv s → Inv (L.foldl considerCandidate s) := by
  induction L with
  | nil => intro s hs; exact hs
  | cons nd L ih =>
    intro s hs
    rw [List.foldl_cons]
    exact ih (considerCandidate s nd) (inv_considerCandidate s nd hs)

/-- The whole enqueue pass preserves the invariant. -/
theorem inv_queue_surrounding (s : ChunkManager) (hs : Inv s) :
    Inv (queue_surrounding_chunks s) := by
  unfold queue_surrounding_chunks
  cases s.current_chunk with
  | none => exact hs
  | some pc =>
    exact inv_foldl_considerCandidate
      (sortedNeighbors CHUNK_LOAD_RADIUS CHUNK_LOAD_PADDING pc) s hs

/-- Membership closed form of the uploaded store after
`resolve_mesh_uploads`'s drain, plus `Nodup` preservation. -/
theorem resolve_fold_spec (L : List (Coord × MeshData)) :
    ∀ u : List (Coord × MeshData),
      (∀ p, p ∈ (L.foldl (fun u pm => meshInsert u pm.1 pm.2) u).map
          Prod.fst ↔ p ∈ u.map Prod.fst ∨ p ∈ L.map Prod.fst) ∧
      ((u.map Prod.fst).Nodup →
        ((L.foldl (fun u pm => meshInsert u pm.1 pm.2) u).map
          Prod.fst).Nodup) := by
  induction L with
  | nil => intro u; exact ⟨fun p => by simp, id⟩
  | cons q L ih =>
    intro u
    rw [List.foldl_cons]
    constructor
    · intro p
      rw [(ih (meshInsert u q.1 q.2)).1 p, mem_meshInsert_map_fst]
      simp only [List.map_cons, List.mem_cons]
      tauto
    · intro h
      exact (ih (meshInsert u q.1 q.2)).2 (meshInsert_keys_nodup _ _ _ h)

/-- `resolve_mesh_uploads` preserves the invariant. -/
theorem inv_resolve_mesh_uploads (s : ChunkManager) (hs : Inv s) :
    Inv (resolve_mesh_uploads s) := by
  unfold resolve_mesh_uploads
  have hup := resolve_fold_spec s.unuploaded_meshes s.uploaded_meshes
  refine ⟨hs.lq_nd, hs.gen_nd, hs.ck_nd, hs.lq_gen, hs.lq_ck, hs.gen_ck,
    hs.gchan, hs.bq_nd, hs.mesh_nd, by simp, hup.2 hs.up_nd, hs.bq_mesh,
    by simp, ?_, by simp, ?_, by simp, hs.mchan⟩
  · intro p hp
    rw [hup.1 p]
    rintro (h' | h')
    · exact hs.bq_up p hp h'
    · exact hs.bq_unup p hp h'
  · intro p hp
    rw [hup.1 p]
    rintro (h' | h')
    · exact hs.mesh_up p hp h'
    · exact hs.mesh_unup p hp h'

/-- `load_chunks` preserves the invariant. -/
theorem inv_load_chunks (sampler : Int → Int → ℚ) (s : ChunkManager)
    (hs : Inv s) : Inv (load_chunks sampler s) :=
  inv_dispatchGen sampler _ (inv_drainGenResults s hs)

/-- A successful `build_meshes` preserves the invariant. -/
theorem inv_build_meshes (order : List (Voxel × Face)) (s s' : ChunkManager)
    (h : build_meshes order s = some s') (hs : Inv s) : Inv s' := by
  unfold build_meshes at h
  rw [Option.bind_eq_some] at h
  obtain ⟨s1, hdrain, hdisp⟩ := h
  exact inv_dispatchMesh order s1 s' hdisp (inv_drainMeshResults s s1
    hdrain hs)

/-- A successful `update` preserves the invariant. -/
theorem inv_update (sampler : Int → Int → ℚ) (order : List (Voxel × Face))
    (s s' : ChunkManager) (px pz : Int)
    (h : update sampler order s px pz = some s') (hs : Inv s) : Inv s' := by
  unfold update at h
  cases hbm : build_meshes order (load_chunks sampler s) with
  | none =>
    rw [hbm] at h
    exact absurd h (by simp)
  | some s2 =>
    rw [hbm] at h
    rw [show ∀ (f : ChunkManager → ChunkManager),
        Option.map f (some s2) = some (f s2) from fun f => rfl] at h
    have h' := Option.some.inj h
    rw [← h']
    have hs2 : Inv s2 := inv_build_meshes order _ s2 hbm
      (inv_load_chunks sampler s hs)
    dsimp only
    split
    · exact hs2
    · refine inv_queue_surrounding _ ?_
      exact ⟨hs2.lq_nd, hs2.gen_nd, hs2.ck_nd, hs2.lq_gen, hs2.lq_ck,
        hs2.gen_ck, hs2.gchan, hs2.bq_nd, hs2.mesh_nd, hs2.unup_nd,
        hs2.up_nd, hs2.bq_mesh, hs2.bq_unup, hs2.bq_up, hs2.mesh_unup,
        hs2.mesh_up, hs2.unup_up, hs2.mchan⟩

/-- The initial state satisfies the invariant. -/
theorem inv_new : Inv new := by
  refine ⟨?_, ?_, ?_, ?_, ?_, ?_, ?_, ?_, ?_, ?_, ?_, ?_, ?_, ?_, ?_, ?_,
    ?_, ?_⟩ <;> simp [new]

/-- Every reachable state satisfies the invariant. -/
theorem inv_reachable (sampler : Int → Int → ℚ)
    (order : List (Voxel × Face)) (s : ChunkManager)
    (h : Reachable sampler order s) : Inv s := by
  induction h with
  | init => exact inv_new
  | step s s' _ hstep ih =>
    cases hstep with
    | update px pz h => exact inv_update sampler order s s' px pz h ih
    | resolve => exact inv_resolve_mesh_uploads s ih

/-- A successful `build_meshes` never touches the chunk store. -/
theorem build_meshes_chunks (order : List (Voxel × Face))
    (s s' : ChunkManager) (h : build_meshes order s = some s') :
    s'.chunks = s.chunks := by
  unfold build_meshes at h
  rw [Option.bind_eq_some] at h
  obtain ⟨s1, hdrain, hdisp⟩ := h
  have h1 := (drainMesh_foldlM_spec _ _ _ hdrain).1
  unfold dispatchMesh at hdisp
  simp only [Option.bind_eq_bind, Option.bind_eq_some] at hdisp
  obtain ⟨st, hfold, hret⟩ := hdisp
  have h2 := (dispatchMesh_foldlM_spec order _ _ _ hfold).1
  have h' := Option.some.inj hret
  subst h'
  dsimp only at h1 h2 ⊢
  rw [h2, h1]

/-- After a successful `update`, the chunk store is exactly the one produced
by the gen-result drain (all later phases leave it alone). -/
theorem update_chunks (sampler : Int → Int → ℚ) (order : List (Voxel × Face))
    (s s' : ChunkManager) (px pz : Int)
    (h : update sampler order s px pz = some s') :
    s'.chunks = (drainGenResults s).chunks := by
  have hlc : (load_chunks sampler s).chunks = (drainGenResults s).chunks := by
    unfold load_chunks dispatchGen
    dsimp only
    exact (dispatchGen_foldl_frame sampler _ _).2.2.2.2.2.2.1
  unfold update at h
  cases hbm : build_meshes order (load_chunks sampler s) with
  | none =>
    rw [hbm] at h
    exact absurd h (by simp)
  | some s2 =>
    rw [hbm] at h
    rw [show ∀ (f : ChunkManager → ChunkManager),
        Option.map f (some s2) = some (f s2) from fun f => rfl] at h
    have h' := Option.some.inj h
    rw [← h']
    have hs2 : s2.chunks = (drainGenResults s).chunks :=
      (build_meshes_chunks order _ s2 hbm).trans hlc
    dsimp only
    split
    · exact hs2
    · rw [(queue_surrounding_frame _).1]
      exact hs2

/-- A successful `update` preserves every existing chunk binding. -/
theorem update_preserves_chunk_data (sampler : Int → Int → ℚ)
    (order : List (Voxel × Face)) (s s' : ChunkManager) (px pz : Int)
    (h : update sampler order s px pz = some s') (hs : Inv s) :
    ∀ q c, storeGet s.chunks q = some c → storeGet s'.chunks q = some c := by
  intro q c hq
  have hqmem : q ∈ s.chunks.map Prod.fst :=
    (storeGet_isSome_iff _ _).mp (by rw [hq]; rfl)
  have hqchan : q ∉ s.chunk_channel.map Chunk.position := fun hk =>
    hs.gen_ck q ((hs.gchan q).mp hk) hqmem
  rw [update_chunks sampler order s s' px pz h]
  unfold drainGenResults
  exact drainGen_foldl_get_preserved _ _ q c hqchan hq

end ChunkManager

/-- Claim C2: in every reachable state of the `ChunkManager`, each
coordinate is in at most one of {load queue, in-flight generating, resident
chunk store} and in at most one of {build queue, in-flight meshing,
mesh-resident (unuploaded or uploaded)}; and a resident chunk's voxel data
is never mutated: every step (a non-panicking `update` tick, or
`resolve_mesh_uploads`) preserves each existing chunk binding exactly. -/
theorem c2_state_invariant (sampler : Int → Int → ℚ)
    (order : List (Voxel × Face)) (s : ChunkManager)
    (h : ChunkManager.Reachable sampler order s) :
    (∀ p : Coord,
      (p ∈ s.load_queue → p ∉ s.currently_generating ∧
        p ∉ s.chunks.map Prod.fst) ∧
      (p ∈ s.currently_generating → p ∉ s.chunks.map Prod.fst) ∧
      (p ∈ s.build_queue → p ∉ s.currently_meshing ∧
        p ∉ s.unuploaded_meshes.map Prod.fst ∧
        p ∉ s.uploaded_meshes.map Prod.fst) ∧
      (p ∈ s.currently_meshing → p ∉ s.unuploaded_meshes.map Prod.fst ∧
        p ∉ s.uploaded_meshes.map Prod.fst) ∧
      (p ∈ s.unuploaded_meshes.map Prod.fst →
        p ∉ s.uploaded_meshes.map Prod.fst)) ∧
    (∀ s' : ChunkManager, ChunkManager.Step sampler order s s' →
      ∀ (q : Coord) (c : Chunk),
        storeGet s.chunks q = some c → storeGet s'.chunks q = some c) := by
  have hs := ChunkManager.inv_reachable sampler order s h
  constructor
  · intro p
    exact ⟨fun hp => ⟨hs.lq_gen p hp, hs.lq_ck p hp⟩,
      fun hp => hs.gen_ck p hp,
      fun hp => ⟨hs.bq_mesh p hp, hs.bq_unup p hp, hs.bq_up p hp⟩,
      fun hp => ⟨hs.mesh_unup p hp, hs.mesh_up p hp⟩,
      fun hp => hs.unup_up p hp⟩
  · intro s' hstep q c hq
    cases hstep with
    | update px pz hu =>
      exact ChunkManager.update_preserves_chunk_data sampler order s s'
        px pz hu hs q c hq
    | resolve => exact hq

/-- Witness for C2 at the freshly constructed manager (reachable by
`Reachable.init`), at coordinate (0, 0). -/
theorem c2_witness :
    ((0, 0) ∈ ChunkManager.new.load_queue →
      (0, 0) ∉ ChunkManager.new.currently_generating ∧
      (0, 0) ∉ ChunkManager.new.chunks.map Prod.fst) ∧
    (∀ s' : ChunkManager,
      ChunkManager.Step (fun _ _ => 0) [] ChunkManager.new s' →
      ∀ (q : Coord) (c : Chunk),
        storeGet ChunkManager.new.chunks q = some c →
        storeGet s'.chunks q = some c) := by
  have h := c2_state_invariant (fun _ _ => 0) [] ChunkManager.new
    ChunkManager.Reachable.init
  exact ⟨(h.1 (0, 0)).1, h.2⟩

/-! ## Claim C5 (idempotence of `update` at an unchanged focal chunk) -/

/-- Claim C5: every successful `update` leaves the recorded focal chunk at
the floor-division image of the given position; and a second `update` whose
position maps to the recorded focal chunk performs exactly the drain and
dispatch phases (`load_chunks` then `build_meshes`) and nothing else — in
particular it appends nothing to either queue beyond what dispatch itself
does, and never calls the enqueue pass. -/
theorem c5_update_idempotent_at_same_chunk (sampler : Int → Int → ℚ)
    (order : List (Voxel × Face)) :
    (∀ (s s' : ChunkManager) (px pz : Int),
      ChunkManager.update sampler order s px pz = some s' →
      s'.current_chunk = some (ChunkManager.toChunkCoord px pz)) ∧
    (∀ (s : ChunkManager) (px pz : Int),
      s.current_chunk = some (ChunkManager.toChunkCoord px pz) →
      ChunkManager.update sampler order s px pz =
        ChunkManager.build_meshes order
          (ChunkManager.load_chunks sampler s)) := by
  constructor
  · intro s s' px pz h
    unfold ChunkManager.update at h
    cases hbm : ChunkManager.build_meshes order
        (ChunkManager.load_chunks sampler s) with
    | none =>
      rw [hbm] at h
      exact absurd h (by simp)
    | some s2 =>
      rw [hbm] at h
      rw [show ∀ (f : ChunkManager → ChunkManager),
          Option.map f (some s2) = some (f s2) from fun f => rfl] at h
      have h' := Option.some.inj h
      rw [← h']
      dsimp only
      split
      · rename_i hcur
        exact hcur
      · rw [(ChunkManager.queue_surrounding_frame _).2.2.2.2.2.2.2]
  · intro s px pz hcur
    unfold ChunkManager.update
    cases hbm : ChunkManager.build_meshes order
        (ChunkManager.load_chunks sampler s) with
    | none => rfl
    | some s2 =>
      rw [show ∀ (f : ChunkManager → ChunkManager),
          Option.map f (some s2) = some (f s2) from fun f => rfl]
      have h2 : s2.current_chunk =
          some (ChunkManager.toChunkCoord px pz) := by
        rw [ChunkManager.build_meshes_current order _ s2 hbm,
          ChunkManager.load_chunks_current sampler s]
        exact hcur
      dsimp only
      rw [if_pos h2]

/-- Witness for C5: with the focal chunk already recorded as (0,0), an
`update` at the origin equals its drain/dispatch phases alone. -/
theorem c5_witness :
    ChunkManager.update (fun _ _ => 0) []
      { ChunkManager.new with current_chunk := some (0, 0) } 0 0 =
    ChunkManager.build_meshes []
      (ChunkManager.load_chunks (fun _ _ => 0)
        { ChunkManager.new with current_chunk := some (0, 0) }) := by
  exact (c5_update_idempotent_at_same_chunk (fun _ _ => 0) []).2
    { ChunkManager.new with current_chunk := some (0, 0) } 0 0 (by decide)

/-- Witness for C7: the empty build state is a 0-face trace, the offsets of
the 1- and 2-face patterns are 4 and 8, and emitting one face from a
2-face trace appends 4 vertices and 6 indices. -/
theorem c7_witness :
    ChunkMesher.indexOffset (ChunkMesher.patternIndices 1) = 4 ∧
    ChunkMesher.indexOffset (ChunkMesher.patternIndices 2) = 8 ∧
    (ChunkMesher.emitFace (Chunk.new (0, 0)) (0, 0, 0) (0, 1, 0) 0
        [3, 3, 3, 3] (FACE_VERTICES.getD 0 []) ([], [])).1.length = 0 + 4 ∧
    ChunkMesher.IsFaceTrace ([], []) := by
  refine ⟨(c7_face_indices_pattern.2.1 1).2, (c7_face_indices_pattern.2.1 2).2,
    (c7_face_indices_pattern.1 (Chunk.new (0, 0)) (0, 0, 0) (0, 1, 0) 0
      [3, 3, 3, 3] (FACE_VERTICES.getD 0 []) ([], []) (by decide)).1, ?_⟩
  have h0 := c7_face_indices_pattern.2.2 [] [] (Chunk.new (0, 0)) []
    (([], []) : MeshData) (([], []) : MeshData) rfl
  exact h0 ⟨0, rfl, rfl⟩

/-! ## Claim C6 (single solid voxel: 6 quads, 24 vertices, 36 indices)

The scenario: a chunk store in which the target chunk holds exactly one
solid voxel and every other resident chunk is entirely air. -/

/-- The voxel grid with a single voxel `v` at local position `(px, py, pz)`. -/
def singleVoxelGrid (px py pz : Nat) (v : Voxel) : VoxelGrid :=
  fun y z x => if x = px ∧ y = py ∧ z = pz then v else Voxel.air

/-- In the single-voxel scenario, every one of the 26 neighbor samples of
the solid voxel — face neighbors and ambient-occlusion ring samples alike —
resolves to "not solid" (never to a panic), whether it falls inside the
target chunk, inside an all-air resident neighbor, below the world, or in
an absent chunk. -/
theorem single_voxel_not_solid (chunks : ChunkStore) (cpos : Coord)
    (v : Voxel) (px py pz : Nat) (hpx : px < 16) (hpz : pz < 16)
    (hpy : py ≤ 254) (tc : Chunk)
    (htc : tc = { voxels := singleVoxelGrid px py pz v, position := cpos })
    (hget : storeGet chunks cpos = some tc)
    (hair : ∀ k ch, storeGet chunks k = some ch → ¬ k = cpos →
      (∀ y z x, ch.voxels y z x = Voxel.air) ∧ ch.position = k)
    (dx dy dz : Int) (hd : ¬ (dx = 0 ∧ dy = 0 ∧ dz = 0))
    (hdx : -1 ≤ dx ∧ dx ≤ 1) (hdy : -1 ≤ dy ∧ dy ≤ 1)
    (hdz : -1 ≤ dz ∧ dz ≤ 1) :
    ChunkMesher.is_solid_at chunks tc (px, py, pz) (dx, dy, dz) =
      some false := by
  subst htc
  unfold ChunkMesher.is_solid_at Chunk.offset_local_in_direction
  unfold ChunkMesher.is_solid
  dsimp only
  simp only [CHUNK_WIDTH, CHUNK_HEIGHT, Nat.cast_ofNat]
  by_cases hin : (0 ≤ (px : ℤ) + dx ∧ (px : ℤ) + dx < 16) ∧
      0 ≤ (pz : ℤ) + dz ∧ (pz : ℤ) + dz < 16
  · -- the sample stays in the target chunk's footprint
    have hox : ((px : ℤ) + dx + cpos.1 * 16) / 16 = cpos.1 := by omega
    have hoz : ((pz : ℤ) + dz + cpos.2 * 16) / 16 = cpos.2 := by omega
    rw [hox, hoz]
    have hget' : storeGet chunks (cpos.1, cpos.2) = some
        { voxels := singleVoxelGrid px py pz v, position := cpos } := by
      rw [show (cpos.1, cpos.2) = cpos from rfl]
      exact hget
    rw [hget']
    unfold Chunk.get_local_position
    dsimp only
    simp only [CHUNK_WIDTH, Nat.cast_ofNat]
    by_cases hy : (py : ℤ) + dy < 0
    · rw [if_pos hy]
    · rw [if_neg hy]
      have hcx : Chunk.castUsize ((px : ℤ) + dx + cpos.1 * 16 -
          cpos.1 * 16) = ((px : ℤ) + dx).toNat := by
        unfold Chunk.castUsize
        omega
      have hcy : Chunk.castUsize ((py : ℤ) + dy) = ((py : ℤ) + dy).toNat := by
        unfold Chunk.castUsize
        omega
      have hcz : Chunk.castUsize ((pz : ℤ) + dz + cpos.2 * 16 -
          cpos.2 * 16) = ((pz : ℤ) + dz).toNat := by
        unfold Chunk.castUsize
        omega
      rw [hcx, hcy, hcz]
      unfold Chunk.is_block_full
      dsimp only
      rw [if_pos (by simp only [CHUNK_WIDTH, CHUNK_HEIGHT]; omega)]
      have hvox : singleVoxelGrid px py pz v ((py : ℤ) + dy).toNat
          (((pz : ℤ) + dz).toNat) (((px : ℤ) + dx).toNat) = Voxel.air := by
        unfold singleVoxelGrid
        rw [if_neg (by omega)]
      rw [hvox]
      simp
  · -- the sample's owning chunk is not the target chunk
    have howner : ¬ (((px : ℤ) + dx + cpos.1 * 16) / 16,
        ((pz : ℤ) + dz + cpos.2 * 16) / 16) = cpos := by
      intro hc
      have h1 : ((px : ℤ) + dx + cpos.1 * 16) / 16 = cpos.1 :=
        congrArg Prod.fst hc
      have h2 : ((pz : ℤ) + dz + cpos.2 * 16) / 16 = cpos.2 :=
        congrArg Prod.snd hc
      omega
    cases hfind : storeGet chunks (((px : ℤ) + dx + cpos.1 * 16) / 16,
        ((pz : ℤ) + dz + cpos.2 * 16) / 16) with
    | none => rfl
    | some ch =>
      obtain ⟨hcha, hchp⟩ := hair _ ch hfind howner
      unfold Chunk.get_local_position
      dsimp only
      simp only [CHUNK_WIDTH, Nat.cast_ofNat]
      by_cases hy : (py : ℤ) + dy < 0
      · rw [if_pos hy]
      · rw [if_neg hy]
        rw [hchp]
        dsimp only
        unfold Chunk.is_block_full Chunk.castUsize
        dsimp only
        rw [if_pos (by simp only [CHUNK_WIDTH, CHUNK_HEIGHT]; omega)]
        rw [hcha]
        simp

theorem mapM_is_solid_at_false (chunks : ChunkStore) (tc : Chunk)
    (p : Nat × Nat × Nat) (l : List (Int × Int × Int))
    (hl : ∀ δ ∈ l, ChunkMesher.is_solid_at chunks tc p δ = some false) :
    l.mapM (ChunkMesher.is_solid_at chunks tc p) =
      some (l.map fun _ => false) := by
  induction l with
  | nil => rfl
  | cons δ l ih =>
    rw [List.mapM_cons, hl δ (List.mem_cons_self δ l),
      ih (fun δ' hδ' => hl δ' (List.mem_cons_of_mem δ hδ'))]
    rfl

/-- In the single-voxel scenario every ambient-occlusion value is 3, the
spec's unoccluded value (`3 - (0 + 0 + 0)`). -/
theorem single_voxel_ao (chunks : ChunkStore) (cpos : Coord) (v : Voxel)
    (px py pz : Nat) (hpx : px < 16) (hpz : pz < 16) (hpy : py ≤ 254)
    (tc : Chunk)
    (htc : tc = { voxels := singleVoxelGrid px py pz v, position := cpos })
    (hget : storeGet chunks cpos = some tc)
    (hair : ∀ k ch, storeGet chunks k = some ch → ¬ k = cpos →
      (∀ y z x, ch.voxels y z x = Voxel.air) ∧ ch.position = k)
    (i : Nat) (hi : i < 6) :
    ChunkMesher.calculate_ambient_occlusion chunks tc (px, py, pz) i =
      some [3, 3, 3, 3] := by
  have hm : ∀ dx dy dz : ℤ, ¬ (dx = 0 ∧ dy = 0 ∧ dz = 0) →
      -1 ≤ dx ∧ dx ≤ 1 → -1 ≤ dy ∧ dy ≤ 1 → -1 ≤ dz ∧ dz ≤ 1 →
      ChunkMesher.is_solid_at chunks tc (px, py, pz) (dx, dy, dz) =
        some false :=
    fun dx dy dz h h1 h2 h3 => single_voxel_not_solid chunks cpos v px py pz
      hpx hpz hpy tc htc hget hair dx dy dz h h1 h2 h3
  interval_cases i
  · unfold ChunkMesher.calculate_ambient_occlusion
    dsimp only
    have hring : AMBIENT_NEIGHBOR_OFFSETS.getD 0 ([] : List (Int × Int × Int)) =
        [(0, 1, -1), (-1, 1, -1), (-1, 1, 0), (-1, 1, 1), (0, 1, 1), (1, 1, 1), (1, 1, 0), (1, 1, -1)] := rfl
    rw [hring, mapM_is_solid_at_false chunks tc (px, py, pz) _ (by
      intro δ hδ
      fin_cases hδ <;> exact hm _ _ _ (by decide) (by decide) (by decide)
        (by decide))]
    rfl
  · unfold ChunkMesher.calculate_ambient_occlusion
    dsimp only
    have hring : AMBIENT_NEIGHBOR_OFFSETS.getD 1 ([] : List (Int × Int × Int)) =
        [(0, -1, -1), (-1, -1, -1), (-1, -1, 0), (-1, -1, 1), (0, -1, 1), (1, -1, 1), (1, -1, 0), (1, -1, -1)] := rfl
    rw [hring, mapM_is_solid_at_false chunks tc (px, py, pz) _ (by
      intro δ hδ
      fin_cases hδ <;> exact hm _ _ _ (by decide) (by decide) (by decide)
        (by decide))]
    rfl
  · unfold ChunkMesher.calculate_ambient_occlusion
    dsimp only
    have hring : AMBIENT_NEIGHBOR_OFFSETS.getD 2 ([] : List (Int × Int × Int)) =
        [(1, 1, 0), (1, 1, 1), (1, 0, 1), (1, -1, 1), (1, -1, 0), (1, -1, -1), (1, 0, -1), (1, 1, -1)] := rfl
    rw [hring, mapM_is_solid_at_false chunks tc (px, py, pz) _ (by
      intro δ hδ
      fin_cases hδ <;> exact hm _ _ _ (by decide) (by decide) (by decide)
        (by decide))]
    rfl
  · unfold ChunkMesher.calculate_ambient_occlusion
    dsimp only
    have hring : AMBIENT_NEIGHBOR_OFFSETS.getD 3 ([] : List (Int × Int × Int)) =
        [(-1, 1, 0), (-1, 1, -1), (-1, 0, -1), (-1, -1, -1), (-1, -1, 0), (-1, -1, 1), (-1, 0, 1), (-1, 1, 1)] := rfl
    rw [hring, mapM_is_solid_at_false chunks tc (px, py, pz) _ (by
      intro δ hδ
      fin_cases hδ <;> exact hm _ _ _ (by decide) (by decide) (by decide)
        (by decide))]
    rfl
  · unfold ChunkMesher.calculate_ambient_occlusion
    dsimp only
    have hring : AMBIENT_NEIGHBOR_OFFSETS.getD 4 ([] : List (Int × Int × Int)) =
        [(0, 1, 1), (-1, 1, 1), (-1, 0, 1), (-1, -1, 1), (0, -1, 1), (1, -1, 1), (1, 0, 1), (1, 1, 1)] := rfl
    rw [hring, mapM_is_solid_at_false chunks tc (px, py, pz) _ (by
      intro δ hδ
      fin_cases hδ <;> exact hm _ _ _ (by decide) (by decide) (by decide)
        (by decide))]
    rfl
  · unfold ChunkMesher.calculate_ambient_occlusion
    dsimp only
    have hring : AMBIENT_NEIGHBOR_OFFSETS.getD 5 ([] : List (Int × Int × Int)) =
        [(0, 1, -1), (-1, 1, -1), (-1, 0, -1), (-1, -1, -1), (0, -1, -1), (1, -1, -1), (1, 0, -1), (1, 1, -1)] := rfl
    rw [hring, mapM_is_solid_at_false chunks tc (px, py, pz) _ (by
      intro δ hδ
      fin_cases hδ <;> exact hm _ _ _ (by decide) (by decide) (by decide)
        (by decide))]
    rfl

/-- Every vertex `emitFace` appends with the unoccluded AO list packs
`(texture << 16) | 3`. -/
theorem emitFace_tex_mem (c : Chunk) (p : Nat × Nat × Nat)
    (n : Int × Int × Int) (ti : Nat) (corners : List (ℚ × ℚ × ℚ))
    (st : MeshData) (hc : corners.length = 4) :
    ∀ vert ∈ (ChunkMesher.emitFace c p n ti [3, 3, 3, 3] corners st).1,
      vert ∈ st.1 ∨ vert.texture_ambient = ti <<< 16 ||| 3 := by
  intro vert hv
  unfold ChunkMesher.emitFace at hv
  dsimp only at hv
  rcases List.mem_append.mp hv with h | h
  · exact Or.inl h
  · right
    obtain ⟨vi, hvi, hvert⟩ := List.mem_map.mp h
    rw [← hvert]
    have hvi4 : vi < 4 := by
      rw [hc] at hvi
      simpa using hvi
    dsimp only
    interval_cases vi <;> rfl

/-- In the single-voxel scenario each of the 6 face iterations emits a face
with some registered texture index and the unoccluded AO list. -/
theorem single_voxel_faceStep (chunks : ChunkStore) (cpos : Coord)
    (v : Voxel) (px py pz : Nat) (hpx : px < 16) (hpz : pz < 16)
    (hpy : py ≤ 254) (tc : Chunk)
    (htc : tc = { voxels := singleVoxelGrid px py pz v, position := cpos })
    (hget : storeGet chunks cpos = some tc)
    (hair : ∀ k ch, storeGet chunks k = some ch → ¬ k = cpos →
      (∀ y z x, ch.voxels y z x = Voxel.air) ∧ ch.position = k)
    (order : List (Voxel × Face)) (tu td ts : Nat)
    (hup : get_texture_index order v Face.up = some tu)
    (hdown : get_texture_index order v Face.down = some td)
    (hside : get_texture_index order v Face.side = some ts)
    (i : Nat) (hi : i < 6) (st : MeshData) :
    ∃ t, ChunkMesher.faceStep chunks order tc (px, py, pz) v st i =
      some (ChunkMesher.emitFace tc (px, py, pz)
        (FACE_NORMALS.getD i (Face.up, (0, 0, 0))).2 t [3, 3, 3, 3]
        (FACE_VERTICES.getD i []) st) := by
  have hm : ∀ dx dy dz : ℤ, ¬ (dx = 0 ∧ dy = 0 ∧ dz = 0) →
      -1 ≤ dx ∧ dx ≤ 1 → -1 ≤ dy ∧ dy ≤ 1 → -1 ≤ dz ∧ dz ≤ 1 →
      ChunkMesher.is_solid_at chunks tc (px, py, pz) (dx, dy, dz) =
        some false :=
    fun dx dy dz h h1 h2 h3 => single_voxel_not_solid chunks cpos v px py pz
      hpx hpz hpy tc htc hget hair dx dy dz h h1 h2 h3
  have hao := single_voxel_ao chunks cpos v px py pz hpx hpz hpy tc htc
    hget hair
  interval_cases i
  · exact ⟨tu, by
      have hs := hm 0 1 0 (by decide) (by decide) (by decide) (by decide)
      have ha := hao 0 (by decide)
      simp [ChunkMesher.faceStep, FACE_NORMALS, FACE_VERTICES, hs, ha, hup, -Prod.mk_zero_zero]⟩
  · exact ⟨td, by
      have hs := hm 0 (-1) 0 (by decide) (by decide) (by decide) (by decide)
      have ha := hao 1 (by decide)
      simp [ChunkMesher.faceStep, FACE_NORMALS, FACE_VERTICES, hs, ha, hdown, -Prod.mk_zero_zero]⟩
  · exact ⟨ts, by
      have hs := hm 1 0 0 (by decide) (by decide) (by decide) (by decide)
      have ha := hao 2 (by decide)
      simp [ChunkMesher.faceStep, FACE_NORMALS, FACE_VERTICES, hs, ha, hside, -Prod.mk_zero_zero]⟩
  · exact ⟨ts, by
      have hs := hm (-1) 0 0 (by decide) (by decide) (by decide) (by decide)
      have ha := hao 3 (by decide)
      simp [ChunkMesher.faceStep, FACE_NORMALS, FACE_VERTICES, hs, ha, hside, -Prod.mk_zero_zero]⟩
  · exact ⟨ts, by
      have hs := hm 0 0 1 (by decide) (by decide) (by decide) (by decide)
      have ha := hao 4 (by decide)
      simp [ChunkMesher.faceStep, FACE_NORMALS, FACE_VERTICES, hs, ha, hside, -Prod.mk_zero_zero]⟩
  · exact ⟨ts, by
      have hs := hm 0 0 (-1) (by decide) (by decide) (by decide) (by decide)
      have ha := hao 5 (by decide)
      simp [ChunkMesher.faceStep, FACE_NORMALS, FACE_VERTICES, hs, ha, hside, -Prod.mk_zero_zero]⟩

/-- Folding the face loop over any subset of the 6 directions in the
single-voxel scenario succeeds, appends 4 vertices per face (all packing
`(texture << 16) | 3`), and preserves the whole-face trace shape. -/
theorem single_voxel_fold_faceStep (chunks : ChunkStore) (cpos : Coord)
    (v : Voxel) (px py pz : Nat) (hpx : px < 16) (hpz : pz < 16)
    (hpy : py ≤ 254) (tc : Chunk)
    (htc : tc = { voxels := singleVoxelGrid px py pz v, position := cpos })
    (hget : storeGet chunks cpos = some tc)
    (hair : ∀ k ch, storeGet chunks k = some ch → ¬ k = cpos →
      (∀ y z x, ch.voxels y z x = Voxel.air) ∧ ch.position = k)
    (order : List (Voxel × Face)) (tu td ts : Nat)
    (hup : get_texture_index order v Face.up = some tu)
    (hdown : get_texture_index order v Face.down = some td)
    (hside : get_texture_index order v Face.side = some ts)
    (L : List Nat) (hL : ∀ i ∈ L, i < 6) :
    ∀ st : MeshData, ∃ st',
      L.foldlM (ChunkMesher.faceStep chunks order tc (px, py, pz) v) st =
        some st' ∧
      st'.1.length = st.1.length + 4 * L.length ∧
      (∀ vert ∈ st'.1, vert ∈ st.1 ∨
        ∃ t, vert.texture_ambient = t <<< 16 ||| 3) ∧
      (ChunkMesher.IsFaceTrace st → ChunkMesher.IsFaceTrace st') := by
  induction L with
  | nil =>
    intro st
    exact ⟨st, rfl, by simp, fun vert hv => Or.inl hv, id⟩
  | cons i L ih =>
    intro st
    have hi : i < 6 := hL i (List.mem_cons_self i L)
    have hcorners : (FACE_VERTICES.getD i []).length = 4 := by
      interval_cases i <;> rfl
    obtain ⟨t, hface⟩ := single_voxel_faceStep chunks cpos v px py pz hpx
      hpz hpy tc htc hget hair order tu td ts hup hdown hside i hi st
    obtain ⟨st', hfold, hlen, hmem, htrace⟩ :=
      ih (fun j hj => hL j (List.mem_cons_of_mem i hj))
        (ChunkMesher.emitFace tc (px, py, pz)
          (FACE_NORMALS.getD i (Face.up, (0, 0, 0))).2 t [3, 3, 3, 3]
          (FACE_VERTICES.getD i []) st)
    refine ⟨st', ?_, ?_, ?_, ?_⟩
    · rw [List.foldlM_cons, hface]
      simpa using hfold
    · rw [hlen, (ChunkMesher.emitFace_lengths _ _ _ _ _ _ _ hcorners).1]
      simp
      omega
    · intro vert hvert
      rcases hmem vert hvert with h | h
      · rcases emitFace_tex_mem tc (px, py, pz) _ t _ st hcorners vert h
          with h' | h'
        · exact Or.inl h'
        · exact Or.inr ⟨t, h'⟩
      · exact Or.inr h
    · intro ht
      exact htrace (ChunkMesher.emitFace_trace _ _ _ _ _ _ _ hcorners ht)

/-- In the single-voxel scenario, `add_block` at the voxel's position emits
exactly 6 faces: 24 new vertices, all packing `(texture << 16) | 3`, and a
whole-face trace again. -/
theorem single_voxel_add_block (chunks : ChunkStore) (cpos : Coord)
    (v : Voxel) (px py pz : Nat) (hpx : px < 16) (hpz : pz < 16)
    (hpy : py ≤ 254) (tc : Chunk)
    (htc : tc = { voxels := singleVoxelGrid px py pz v, position := cpos })
    (hget : storeGet chunks cpos = some tc)
    (hair : ∀ k ch, storeGet chunks k = some ch → ¬ k = cpos →
      (∀ y z x, ch.voxels y z x = Voxel.air) ∧ ch.position = k)
    (order : List (Voxel × Face)) (tu td ts : Nat)
    (hup : get_texture_index order v Face.up = some tu)
    (hdown : get_texture_index order v Face.down = some td)
    (hside : get_texture_index order v Face.side = some ts)
    (hv : v ≠ Voxel.air) (st : MeshData) :
    ∃ st', ChunkMesher.add_block chunks order tc st (px, py, pz) =
        some st' ∧
      st'.1.length = st.1.length + 24 ∧
      (∀ vert ∈ st'.1, vert ∈ st.1 ∨
        ∃ t, vert.texture_ambient = t <<< 16 ||| 3) ∧
      (ChunkMesher.IsFaceTrace st → ChunkMesher.IsFaceTrace st') := by
  have hfull : tc.is_block_full (px, py, pz) = some true := by
    rw [htc]
    unfold Chunk.is_block_full
    dsimp only
    rw [if_pos (by simp only [CHUNK_WIDTH, CHUNK_HEIGHT]; omega)]
    unfold singleVoxelGrid
    rw [if_pos ⟨rfl, rfl, rfl⟩]
    exact congrArg some (decide_eq_true hv)
  have hvox : tc.voxels py pz px = v := by
    rw [htc]
    dsimp only
    unfold singleVoxelGrid
    rw [if_pos ⟨rfl, rfl, rfl⟩]
  obtain ⟨st', hfold, hlen, hmem, htrace⟩ := single_voxel_fold_faceStep
    chunks cpos v px py pz hpx hpz hpy tc htc hget hair order tu td ts hup
    hdown hside (List.range 6) (by intro j hj; simpa using hj) st
  refine ⟨st', ?_, by simpa using hlen, hmem, htrace⟩
  have hab : ChunkMesher.add_block chunks order tc st (px, py, pz) =
      (List.range 6).foldlM
        (ChunkMesher.faceStep chunks order tc (px, py, pz)
          (tc.voxels py pz px)) st := by
    unfold ChunkMesher.add_block
    rw [hfull]
    rfl
  rw [hab, hvox]
  exact hfold

/-- `add_block` is the identity on any in-bounds air position. -/
theorem add_block_air (chunks : ChunkStore) (order : List (Voxel × Face))
    (c : Chunk) (q : Nat × Nat × Nat)
    (hin : q.1 < CHUNK_WIDTH ∧ q.2.1 < CHUNK_HEIGHT ∧ q.2.2 < CHUNK_WIDTH)
    (hairq : c.voxels q.2.1 q.2.2 q.1 = Voxel.air) (st : MeshData) :
    ChunkMesher.add_block chunks order c st q = some st := by
  have hfull : c.is_block_full q = some false := by
    unfold Chunk.is_block_full
    rw [if_pos ⟨hin.2.1, hin.2.2, hin.1⟩, hairq]
    simp
  unfold ChunkMesher.add_block
  rw [hfull]
  rfl

/-- Scan-order membership is exactly in-bounds membership. -/
theorem mem_allPositions_iff (q : Nat × Nat × Nat) :
    q ∈ ChunkMesher.allPositions ↔
      q.1 < CHUNK_WIDTH ∧ q.2.1 < CHUNK_HEIGHT ∧ q.2.2 < CHUNK_WIDTH := by
  unfold ChunkMesher.allPositions
  simp only [List.mem_flatMap, List.mem_map, List.mem_range]
  constructor
  · rintro ⟨y, hy, z, hz, x, hx, rfl⟩
    exact ⟨hx, hy, hz⟩
  · rintro ⟨hx, hy, hz⟩
    exact ⟨q.2.1, hy, q.2.2, hz, q.1, hx, rfl⟩

/-- The scan order visits every position exactly once. -/
theorem allPositions_nodup : ChunkMesher.allPositions.Nodup := by
  unfold ChunkMesher.allPositions
  rw [List.nodup_flatMap]
  constructor
  · intro y _
    rw [List.nodup_flatMap]
    constructor
    · intro z _
      exact (List.nodup_range _).map (fun a b h => by
        injection h with h1 h2)
    · refine List.Pairwise.imp ?_ (List.nodup_range CHUNK_WIDTH)
      intro z z' hzz q hq hq'
      obtain ⟨x, _, hx⟩ := List.mem_map.mp hq
      obtain ⟨x', _, hx'⟩ := List.mem_map.mp hq'
      rw [← hx'] at hx
      injection hx with h1 h2
      injection h2 with h3 h4
      exact hzz h4
  · refine List.Pairwise.imp ?_ (List.nodup_range CHUNK_HEIGHT)
    intro y y' hyy q hq hq'
    obtain ⟨z, _, hz⟩ := List.mem_flatMap.mp hq
    obtain ⟨z', _, hz'⟩ := List.mem_flatMap.mp hq'
    obtain ⟨x, _, hx⟩ := List.mem_map.mp hz
    obtain ⟨x', _, hx'⟩ := List.mem_map.mp hz'
    rw [← hx'] at hx
    injection hx with h1 h2
    injection h2 with h3 h4
    exact hyy h3

/-- Folding `add_block` over a list of in-bounds positions that are all air
in `c` is the identity. -/
theorem foldlM_add_block_air (chunks : ChunkStore)
    (order : List (Voxel × Face)) (c : Chunk) (L : List (Nat × Nat × Nat))
    (hL : ∀ q ∈ L,
      (q.1 < CHUNK_WIDTH ∧ q.2.1 < CHUNK_HEIGHT ∧ q.2.2 < CHUNK_WIDTH) ∧
      c.voxels q.2.1 q.2.2 q.1 = Voxel.air) :
    ∀ st : MeshData,
      L.foldlM (ChunkMesher.add_block chunks order c) st = some st := by
  induction L with
  | nil => intro st; rfl
  | cons q L ih =>
    intro st
    rw [List.foldlM_cons,
      add_block_air chunks order c q (hL q (List.mem_cons_self q L)).1
        (hL q (List.mem_cons_self q L)).2 st]
    simpa using ih (fun q' hq' => hL q' (List.mem_cons_of_mem q hq')) st

/-- The low 16 bits of the packed field are the ambient-occlusion value. -/
theorem pack_mod (t a : Nat) (ha : a < 2 ^ 16) :
    (t <<< 16 ||| a) % 2 ^ 16 = a := by
  refine Nat.eq_of_testBit_eq ?_
  intro i
  rw [Nat.testBit_mod_two_pow, Nat.testBit_lor, Nat.testBit_shiftLeft]
  by_cases hi : i < 16
  · have h1 : decide (i < 16) = true := decide_eq_true hi
    have h2 : decide (16 ≤ i) = false := decide_eq_false (by omega)
    rw [h1, h2]
    simp
  · have h1 : decide (i < 16) = false := decide_eq_false hi
    rw [h1]
    simp only [Bool.false_and]
    symm
    exact Nat.testBit_eq_false_of_lt (lt_of_lt_of_le ha
      (Nat.pow_le_pow_right (by norm_num) (by omega)))

theorem foldlM_append_opt {α β : Type} (f : β → α → Option β)
    (L1 L2 : List α) :
    ∀ b, (L1 ++ L2).foldlM f b =
      (L1.foldlM f b).bind (fun b' => L2.foldlM f b') := by
  induction L1 with
  | nil => intro b; simp
  | cons a L1 ih =>
    intro b
    rw [List.cons_append, List.foldlM_cons, List.foldlM_cons]
    cases f b a with
    | none => rfl
    | some b1 =>
      simp only [Option.bind_eq_bind, Option.some_bind]
      exact ih b1

/-- The single-voxel mesh: `build` succeeds and produces exactly the 6-face
index pattern (36 indices) and 24 vertices, every one of which packs
`(texture << 16) | 3` — ambient-occlusion value 3, the unoccluded value. -/
theorem single_voxel_build (chunks : ChunkStore) (cpos : Coord) (v : Voxel)
    (px py pz : Nat) (hpx : px < 16) (hpz : pz < 16) (hpy : py ≤ 254)
    (tc : Chunk)
    (htc : tc = { voxels := singleVoxelGrid px py pz v, position := cpos })
    (hget : storeGet chunks cpos = some tc)
    (hair : ∀ k ch, storeGet chunks k = some ch → ¬ k = cpos →
      (∀ y z x, ch.voxels y z x = Voxel.air) ∧ ch.position = k)
    (order : List (Voxel × Face)) (tu td ts : Nat)
    (hup : get_texture_index order v Face.up = some tu)
    (hdown : get_texture_index order v Face.down = some td)
    (hside : get_texture_index order v Face.side = some ts)
    (hv : v ≠ Voxel.air) :
    ∃ V : List MeshVertex,
      ChunkMesher.build chunks order cpos =
        some (V, ChunkMesher.patternIndices 6) ∧
      V.length = 24 ∧
      (∀ vert ∈ V, ∃ t, vert.texture_ambient = t <<< 16 ||| 3) := by
  have hairpos : ∀ q : Nat × Nat × Nat, ¬ q = (px, py, pz) →
      tc.voxels q.2.1 q.2.2 q.1 = Voxel.air := by
    intro q hq
    rw [htc]
    dsimp only
    unfold singleVoxelGrid
    rw [if_neg]
    rintro ⟨e1, e2, e3⟩
    apply hq
    rcases q with ⟨qx, qy, qz⟩
    dsimp only at e1 e2 e3
    rw [e1, e2, e3]
  have hpmem : (px, py, pz) ∈ ChunkMesher.allPositions :=
    (mem_allPositions_iff _).mpr (by
      simp only [CHUNK_WIDTH, CHUNK_HEIGHT]
      omega)
  obtain ⟨L1, L2, hsplit⟩ := List.append_of_mem hpmem
  have hnd := allPositions_nodup
  rw [hsplit] at hnd
  rw [List.nodup_append] at hnd
  have hpL1 : (px, py, pz) ∉ L1 := fun h =>
    hnd.2.2 h (List.mem_cons_self _ _)
  have hpL2 : (px, py, pz) ∉ L2 := fun h =>
    (List.nodup_cons.mp hnd.2.1).1 h
  have hL1 : ∀ q ∈ L1,
      (q.1 < CHUNK_WIDTH ∧ q.2.1 < CHUNK_HEIGHT ∧ q.2.2 < CHUNK_WIDTH) ∧
      tc.voxels q.2.1 q.2.2 q.1 = Voxel.air := by
    intro q hq
    refine ⟨(mem_allPositions_iff q).mp
      (hsplit ▸ List.mem_append.mpr (Or.inl hq)), ?_⟩
    refine hairpos q ?_
    rintro rfl
    exact hpL1 hq
  have hL2 : ∀ q ∈ L2,
      (q.1 < CHUNK_WIDTH ∧ q.2.1 < CHUNK_HEIGHT ∧ q.2.2 < CHUNK_WIDTH) ∧
      tc.voxels q.2.1 q.2.2 q.1 = Voxel.air := by
    intro q hq
    refine ⟨(mem_allPositions_iff q).mp
      (hsplit ▸ List.mem_append.mpr (Or.inr (List.mem_cons_of_mem _ hq))),
      ?_⟩
    refine hairpos q ?_
    rintro rfl
    exact hpL2 hq
  obtain ⟨st', habq, hlen, hmem, htrace⟩ := single_voxel_add_block chunks
    cpos v px py pz hpx hpz hpy tc htc hget hair order tu td ts hup hdown
    hside hv ([], [])
  obtain ⟨n, hn4, hnpat⟩ := htrace ⟨0, rfl, rfl⟩
  have hn6 : n = 6 := by
    rw [hn4] at hlen
    simp at hlen
    omega
  subst hn6
  have hbuild : ChunkMesher.build chunks order cpos = some st' := by
    unfold ChunkMesher.build
    rw [hget]
    dsimp only
    rw [hsplit, foldlM_append_opt]
    rw [foldlM_add_block_air chunks order tc L1 hL1]
    simp only [Option.bind_eq_bind, Option.some_bind]
    rw [List.foldlM_cons, habq]
    simp only [Option.bind_eq_bind, Option.some_bind]
    exact foldlM_add_block_air chunks order tc L2 hL2 st'
  refine ⟨st'.1, ?_, by simpa using hlen, ?_⟩
  · rw [hbuild, ← hnpat]
  · intro vert hvert
    rcases hmem vert hvert with h | h
    · exact absurd h (List.not_mem_nil vert)
    · exact h

/-- Claim C6 (amended): meshing a chunk holding exactly one solid voxel,
with every voxel of every resident chunk other than that one Air (and the
voxel below the grid top so that the sampling stays in bounds), produces
exactly 6 quads — 24 vertices and 36 indices — and every vertex's packed
ambient-occlusion component (the low 16 bits) is 3, the spec's unoccluded
value `3 - (0 + 0 + 0)`, not 0 (0 is maximum occlusion). -/
theorem c6_single_voxel_mesh (chunks : ChunkStore) (cpos : Coord)
    (v : Voxel) (px py pz : Nat) (hpx : px < 16) (hpz : pz < 16)
    (hpy : py ≤ 254) (tc : Chunk)
    (htc : tc = { voxels := singleVoxelGrid px py pz v, position := cpos })
    (hget : storeGet chunks cpos = some tc)
    (hair : ∀ k ch, storeGet chunks k = some ch → ¬ k = cpos →
      (∀ y z x, ch.voxels y z x = Voxel.air) ∧ ch.position = k)
    (order : List (Voxel × Face)) (tu td ts : Nat)
    (hup : get_texture_index order v Face.up = some tu)
    (hdown : get_texture_index order v Face.down = some td)
    (hside : get_texture_index order v Face.side = some ts)
    (hv : v ≠ Voxel.air) :
    ∃ m : MeshData, ChunkMesher.build chunks order cpos = some m ∧
      m.1.length = 24 ∧ m.2.length = 36 ∧
      ∀ vert ∈ m.1, vert.texture_ambient % 2 ^ 16 = 3 := by
  obtain ⟨V, hb, hlen, hmem⟩ := single_voxel_build chunks cpos v px py pz
    hpx hpz hpy tc htc hget hair order tu td ts hup hdown hside hv
  refine ⟨(V, ChunkMesher.patternIndices 6), hb, hlen, ?_, ?_⟩
  · show (ChunkMesher.patternIndices 6).length = 36
    rw [ChunkMesher.patternIndices_length]
  · intro vert hvert
    obtain ⟨t, ht⟩ := hmem vert hvert
    rw [ht]
    exact pack_mod t 3 (by norm_num)

/-- The concrete C6 scenario: a single stone voxel at (8, 8, 8) of the
origin chunk. -/
def c6Chunk : Chunk :=
  { voxels := singleVoxelGrid 8 8 8 Voxel.stone, position := (0, 0) }

/-- The origin chunk is the sole resident chunk. -/
def c6Store : ChunkStore := [((0, 0), c6Chunk)]

/-- A registry with all three stone face textures. -/
def c6Order : List (Voxel × Face) :=
  [(Voxel.stone, Face.up), (Voxel.stone, Face.down),
    (Voxel.stone, Face.side)]

/-- In the C6 scenario every non-origin key lookup fails. -/
theorem c6Store_other (k : Coord) (ch : Chunk)
    (h : storeGet c6Store k = some ch) (hk : ¬ k = (0, 0)) :
    (∀ y z x, ch.voxels y z x = Voxel.air) ∧ ch.position = k := by
  exfalso
  unfold storeGet c6Store at h
  rw [List.find?_cons_of_neg _ (fun hde =>
    hk (of_decide_eq_true hde).symm)] at h
  simp at h

/-- Counterexample to claim C6 as stated: in the claim's own scenario (a
single stone voxel at (8, 8, 8) of the origin chunk, sole resident chunk,
all three face textures registered), the mesh is produced with its 24
vertices — but a vertex's packed ambient-occlusion component is 3, not 0. -/
theorem c6_counterexample :
    ∃ m : MeshData,
      ChunkMesher.build c6Store c6Order (0, 0) = some m ∧
      m.1.length = 24 ∧
      ¬ (∀ vert ∈ m.1, vert.texture_ambient % 2 ^ 16 = 0) := by
  obtain ⟨V, hb, hlen, hmem⟩ := single_voxel_build c6Store
    (0, 0) Voxel.stone 8 8 8 (by decide) (by decide) (by decide)
    c6Chunk rfl rfl c6Store_other c6Order 0 1 2 rfl rfl rfl (by decide)
  refine ⟨(V, ChunkMesher.patternIndices 6), hb, hlen, ?_⟩
  intro hall
  cases hV : V with
  | nil =>
    rw [hV] at hlen
    simp at hlen
  | cons vert V' =>
    obtain ⟨t, ht⟩ := hmem vert (hV ▸ List.mem_cons_self vert V')
    have h3 := hall vert (show vert ∈ (V, ChunkMesher.patternIndices 6).1
      from hV ▸ List.mem_cons_self vert V')
    rw [ht, pack_mod t 3 (by norm_num)] at h3
    cases h3

/-- Witness for C6 (amended) at the same concrete scenario. -/
theorem c6_witness :
    ∃ m : MeshData,
      ChunkMesher.build c6Store c6Order (0, 0) = some m ∧
      m.1.length = 24 ∧ m.2.length = 36 ∧
      ∀ vert ∈ m.1, vert.texture_ambient % 2 ^ 16 = 3 := by
  exact c6_single_voxel_mesh c6Store
    (0, 0) Voxel.stone 8 8 8 (by decide) (by decide) (by decide)
    c6Chunk rfl rfl c6Store_other c6Order 0 1 2 rfl rfl rfl (by decide)

end PigEngine
